import Mathlib

/-!
Referral rewards ledger (`server.js`).

A shallow embedding of the in-memory store of `server.js` (the four globals
`users`, `referrals`, `wallets`, `withdrawals`), of its utility functions
(`rewardUser`, `withdrawUser`, `canWithdraw`, `logWithdraw`) and of its request
handlers, followed by the properties proved about them.

Modelling conventions.
* Identifiers (`uuidv4()` results and the ids found in request bodies) are
  opaque values, modelled as natural numbers.  A handler that calls `uuidv4()`
  takes the generated id as an argument; `Fresh` says that the id occurs nowhere
  in the store.
* The model is written over a type `N` of numbers with the operations the program
  uses (`+`, `-`, `<`, the literals 0 and 120). The statements about amounts are
  about `N = Int`: requests that carry whole amounts, on which the doubles of the
  program are exact below `2 ^ 53`. `Dbl` gives the second instance, IEEE-754
  doubles with NaN, used where the claim depends on the arithmetic.
* `new Date().toISOString()` is modelled by a `Timestamp` argument `now`, one per
  request; `t.startsWith(today)` compares the date components.
* The objects `wallets` and `withdrawals` are finite maps, modelled as functions
  into `Option`; `none` is a key that is absent (`undefined`).
* `name`, `phone` and the profile part of `vendorDetails` are carried as an
  uninterpreted `profile` string; the `id` and `type` that `vendorDetails` may carry
  are modelled, since the handler lets them replace the vendor id and role.
* The identifiers of stored users are ordinary identifiers; the `customerId` of a
  referral is any string of the request, a `Key`.
-/

namespace Server

/-- Opaque identifier of a user or referral (a `uuidv4()` string in the source). -/
abbrev UserId := Nat

/-- The `type` of a user as the handlers test it: `=== 'customer'`, `=== 'vendor'`,
or any other value. -/
inductive Role where
  | customer
  | vendor
  | other (label : String)
  deriving DecidableEq, Repr

/-- An ISO-8601 timestamp: the date component (what precedes `T`) and the rest. -/
structure Timestamp where
  day : Nat
  time : Nat
  deriving DecidableEq, Repr

/-- The `type` field of a transaction record. -/
inductive TxType where
  | credit
  | debit
  deriving DecidableEq, Repr

/-- A transaction record `{ type, amount, date }`, over the numbers `N`. -/
structure TransactionOf (N : Type) where
  type : TxType
  amount : N
  date : Timestamp
  deriving DecidableEq, Repr

/-- A wallet `{ balance, transactions }`, over the numbers `N`. -/
structure WalletOf (N : Type) where
  balance : N
  transactions : List (TransactionOf N)
  deriving DecidableEq, Repr

/-- An element of `users`. -/
structure User where
  id : UserId
  type : Role
  profile : String
  deriving DecidableEq, Repr

/-- A string used as a key of `wallets`: an ordinary identifier, or the name of a
property that every JavaScript object inherits (`constructor`, `toString`,
`__proto__`, ...), for which `wallets[key]` is a truthy object that is no wallet.
Keys of the second kind never become own keys of `wallets` or `withdrawals`. -/
inductive Key where
  | id (u : UserId)
  | inherited (name : String)
  deriving DecidableEq, Repr

/-- The `status` field of a referral. -/
inductive Status where
  | initiated
  | registered
  deriving DecidableEq, Repr

/-- An element of `referrals`; `agreement` is `none` until it is assigned. The
`customerId` is the string of the request body, stored as it came. -/
structure Referral where
  vendorId : UserId
  customerId : Key
  vendorName : String
  vendorLocation : String
  status : Status
  createdAt : Timestamp
  agreement : Option Bool
  deriving DecidableEq, Repr

/-- The in-memory database: the four module-level variables. -/
structure StateOf (N : Type) where
  users : List User
  referrals : List Referral
  wallets : UserId → Option (WalletOf N)
  withdrawals : UserId → Option (List Timestamp)

/-- The store at start-up: `users = []`, `referrals = []`, `wallets = {}`,
`withdrawals = {}`. -/
def StateOf.empty {N : Type} : StateOf N :=
  { users := [], referrals := [], wallets := fun _ => none, withdrawals := fun _ => none }

/-- Assignment `m[k] = v` on a map. -/
def setKey {α : Type} (m : UserId → Option α) (k : UserId) (v : α) : UserId → Option α :=
  fun i => if i = k then some v else m i

/-- The wallet written by `/register` and by the first `rewardUser`. -/
def WalletOf.zero {N : Type} [OfNat N 0] : WalletOf N := { balance := 0, transactions := [] }

/-- The store after the statements of `rewardUser(userId, amount)` for an ordinary
identifier: the wallet is created when absent, credited, and the record pushed. -/
def credited {N : Type} [OfNat N 0] [Add N] (s : StateOf N) (now : Timestamp) (userId : UserId)
    (amount : N) : StateOf N :=
  let w := (s.wallets userId).getD WalletOf.zero
  let w1 : WalletOf N :=
    { balance := w.balance + amount,
      transactions := w.transactions ++ [TransactionOf.mk .credit amount now] }
  { s with wallets := setKey s.wallets userId w1 }

/-- Function `rewardUser(userId, amount)`; `none` when it throws. For an inherited
key `!wallets[userId]` is false, `balance +=` writes to the inherited object, which
is no part of the store, and `transactions.push` throws a `TypeError`. -/
def rewardUser {N : Type} [OfNat N 0] [Add N] (s : StateOf N) (now : Timestamp) (userId : Key)
    (amount : N) : Option (StateOf N) :=
  match userId with
  | .inherited _ => none
  | .id u => some (credited s now u amount)

/-- Function `withdrawUser(userId, amount)`: the new store and the returned boolean. -/
def withdrawUser {N : Type} [Sub N] [LT N] [DecidableRel (fun a b : N => a < b)]
    (s : StateOf N) (now : Timestamp) (userId : UserId) (amount : N) : StateOf N × Bool :=
  match s.wallets userId with
  | none => (s, false)
  | some w =>
    if w.balance < amount then (s, false)
    else
      let w1 : WalletOf N :=
        { balance := w.balance - amount,
          transactions := w.transactions ++ [TransactionOf.mk .debit amount now] }
      ({ s with wallets := setKey s.wallets userId w1 }, true)

/-- Function `canWithdraw(userId, type)`: the new store (the log of `userId` is
created empty when absent) and the returned boolean. -/
def canWithdraw {N : Type} (s : StateOf N) (now : Timestamp) (userId : UserId) (type : Role) :
    StateOf N × Bool :=
  let today := now.day
  let s1 : StateOf N :=
    match s.withdrawals userId with
    | none => { s with withdrawals := setKey s.withdrawals userId [] }
    | some _ => s
  let todayWithdrawals := ((s1.withdrawals userId).getD []).filter (fun t => t.day == today)
  match type with
  | .customer => (s1, decide (todayWithdrawals.length < 1))
  | .vendor => (s1, decide (todayWithdrawals.length < 3))
  | .other _ => (s1, false)

/-- Function `logWithdraw(userId)`. -/
def logWithdraw {N : Type} (s : StateOf N) (now : Timestamp) (userId : UserId) : StateOf N :=
  let log := (s.withdrawals userId).getD []
  { s with withdrawals := setKey s.withdrawals userId (log ++ [now]) }

/-- Handler `POST /register`; `id` is the value of `uuidv4()`. -/
def register {N : Type} [OfNat N 0] (s : StateOf N) (id : UserId) (type : Role)
    (profile : String) : StateOf N :=
  { s with
    users := s.users ++ [{ id := id, type := type, profile := profile }],
    wallets := setKey s.wallets id WalletOf.zero }

/-- Handler `POST /initiate-referral`; `vendorId` is the value of `uuidv4()`. -/
def initiateReferral {N : Type} (s : StateOf N) (now : Timestamp) (vendorId : UserId)
    (customerId : Key) (vendorName vendorLocation : String) : StateOf N :=
  { s with
    referrals := s.referrals ++
      [{ vendorId := vendorId, customerId := customerId, vendorName := vendorName,
         vendorLocation := vendorLocation, status := .initiated, createdAt := now,
         agreement := none }] }

/-- Outcome of `POST /vendor-register`: status 404, the 200 confirmation, or the
status 500 that Express sends when the handler throws. -/
inductive RegisterResult where
  | notFound
  | rewarded
  | serverError
  deriving DecidableEq, Repr

/-- The object `vendorDetails` of the request body: the `id` and `type` properties
it may carry, and the remaining profile data. -/
structure VendorDetails where
  id : Option UserId
  type : Option Role
  profile : String
  deriving DecidableEq, Repr

/-- In-place update of the first referral whose `vendorId` matches: what the
assignments to `referral.status` and `referral.agreement` do to the array. -/
def markRegistered (vendorId : UserId) (agreementAccepted : Option Bool) :
    List Referral → List Referral
  | [] => []
  | r :: rs =>
    if r.vendorId = vendorId then
      { r with status := .registered, agreement := agreementAccepted } :: rs
    else r :: markRegistered vendorId agreementAccepted rs

/-- The store after the first three statements of `POST /vendor-register` past the
lookup: the user `{ id: vendorId, type: 'vendor', ...vendorDetails }` is pushed and
the referral is marked. The spread comes last, so an `id` or `type` property of
`vendorDetails` replaces `vendorId` or `'vendor'` in the stored user. -/
def enrolled {N : Type} (s : StateOf N) (vendorId : UserId) (vendorDetails : VendorDetails)
    (agreementAccepted : Option Bool) : StateOf N :=
  { s with
    users := s.users ++
      [{ id := vendorDetails.id.getD vendorId, type := vendorDetails.type.getD .vendor,
         profile := vendorDetails.profile }],
    referrals := markRegistered vendorId agreementAccepted s.referrals }

/-- Handler `POST /vendor-register`. When `rewardUser` throws, the handler stops
there, what it has written stays, and the reply is the status 500. -/
def vendorRegister {N : Type} [OfNat N 0] [OfNat N 120] [Add N] (s : StateOf N)
    (now : Timestamp) (vendorId : UserId) (vendorDetails : VendorDetails)
    (agreementAccepted : Option Bool) : StateOf N × RegisterResult :=
  match s.referrals.find? (fun r => decide (r.vendorId = vendorId)) with
  | none => (s, .notFound)
  | some referral =>
    let s1 := enrolled s vendorId vendorDetails agreementAccepted
    match rewardUser s1 now referral.customerId 120 with
    | none => (s1, .serverError)
    | some s2 =>
      match rewardUser s2 now (.id vendorId) 120 with
      | none => (s2, .serverError)
      | some s3 => (s3, .rewarded)

/-- Handler `GET /wallet/:userId`: the wallet, or the zero wallet when absent. -/
def getWallet {N : Type} [OfNat N 0] (s : StateOf N) (userId : UserId) : WalletOf N :=
  (s.wallets userId).getD WalletOf.zero

/-- Outcome of `POST /withdraw`: 404 `User not found`, 403 `Withdraw limit reached`,
400 `Minimum withdraw ...`, 400 `Insufficient balance`, or 200 with the balance. -/
inductive WithdrawResultOf (N : Type) where
  | notFound
  | limitExceeded
  | belowMinimum
  | insufficientBalance
  | success (balance : N)
  deriving DecidableEq, Repr

/-- The `minAmount` of `POST /withdraw`. -/
def minAmount {N : Type} [OfNat N 0] [OfNat N 120] (type : Role) : N :=
  if type = .customer then 120 else 0

/-- Handler `POST /withdraw`.  On the success path the wallet exists (`withdrawUser`
returned true), so `getWallet` reads `wallets[userId].balance`. -/
def withdraw {N : Type} [OfNat N 0] [OfNat N 120] [Sub N] [LT N]
    [DecidableRel (fun a b : N => a < b)] (s : StateOf N) (now : Timestamp) (userId : UserId)
    (amount : N) : StateOf N × WithdrawResultOf N :=
  match s.users.find? (fun u => decide (u.id = userId)) with
  | none => (s, .notFound)
  | some user =>
    let c := canWithdraw s now userId user.type
    if c.2 = false then (c.1, .limitExceeded)
    else if amount < minAmount user.type then (c.1, .belowMinimum)
    else
      let d := withdrawUser c.1 now userId amount
      if d.2 = false then (d.1, .insufficientBalance)
      else
        let s3 := logWithdraw d.1 now userId
        (s3, .success (getWallet s3 userId).balance)

/-- Body of the `forEach` callback of `POST /eod-auto-withdraw` for one user:
`wallets[uid]?.balance > 0` is tested first and `canWithdraw` is called only when it
holds; the value returned by `withdrawUser` is not used. -/
def eodUser {N : Type} [OfNat N 0] [Sub N] [LT N] [DecidableRel (fun a b : N => a < b)]
    (now : Timestamp) (s : StateOf N) (user : User) : StateOf N :=
  match s.wallets user.id with
  | none => s
  | some w =>
    if 0 < w.balance then
      let c := canWithdraw s now user.id user.type
      if c.2 = true then
        let d := withdrawUser c.1 now user.id (getWallet c.1 user.id).balance
        logWithdraw d.1 now user.id
      else c.1
    else s

/-- Handler `POST /eod-auto-withdraw`: `users.forEach(...)`. -/
def eodAutoWithdraw {N : Type} [OfNat N 0] [Sub N] [LT N]
    [DecidableRel (fun a b : N => a < b)] (s : StateOf N) (now : Timestamp) : StateOf N :=
  s.users.foldl (eodUser now) s

/-- The identifier occurs nowhere in the store: what `uuidv4()` returns. -/
def Fresh {N : Type} (s : StateOf N) (id : UserId) : Prop :=
  (∀ u ∈ s.users, u.id ≠ id) ∧
  (∀ r ∈ s.referrals, r.vendorId ≠ id ∧ r.customerId ≠ .id id) ∧
  s.wallets id = none ∧ s.withdrawals id = none

/-- States reachable from the empty store by requests to the five mutating
handlers, each served at an arbitrary time, with amounts in `N`. -/
inductive Reachable {N : Type} [OfNat N 0] [OfNat N 120] [Add N] [Sub N] [LT N]
    [DecidableRel (fun a b : N => a < b)] : StateOf N → Prop where
  | init : Reachable StateOf.empty
  | register {s : StateOf N} (id : UserId) (type : Role) (profile : String) :
      Reachable s → Fresh s id → Reachable (register s id type profile)
  | initiateReferral {s : StateOf N} (now : Timestamp) (vendorId : UserId) (customerId : Key)
      (vendorName vendorLocation : String) :
      Reachable s → Fresh s vendorId →
      Reachable (initiateReferral s now vendorId customerId vendorName vendorLocation)
  | vendorRegister {s : StateOf N} (now : Timestamp) (vendorId : UserId)
      (vendorDetails : VendorDetails) (agreementAccepted : Option Bool) :
      Reachable s → Reachable (vendorRegister s now vendorId vendorDetails agreementAccepted).1
  | withdraw {s : StateOf N} (now : Timestamp) (userId : UserId) (amount : N) :
      Reachable s → Reachable (withdraw s now userId amount).1
  | eodAutoWithdraw {s : StateOf N} (now : Timestamp) :
      Reachable s → Reachable (eodAutoWithdraw s now)

/-- The entries of a user's withdrawal log (no entries when the log is absent). -/
def logEntries {N : Type} (s : StateOf N) (userId : UserId) : List Timestamp :=
  (s.withdrawals userId).getD []

/-- Number of entries of a user's withdrawal log dated `day`. -/
def withdrawalsOn {N : Type} (s : StateOf N) (userId : UserId) (day : Nat) : Nat :=
  ((logEntries s userId).filter (fun t => t.day == day)).length

/-! ## Integer amounts

Whole amounts are exact in the doubles of the program as long as they stay below
`2 ^ 53`, so for requests that carry whole amounts the program computes as it does
over the integers. The statements below about amounts are statements about the model
instantiated at `Int`. -/

/-- A transaction record with an integer amount. -/
abbrev Transaction := TransactionOf Int

/-- A wallet with integer balance and amounts. -/
abbrev Wallet := WalletOf Int

/-- A store with integer balances and amounts. -/
abbrev State := StateOf Int

/-- Outcome of `POST /withdraw` with an integer balance. -/
abbrev WithdrawResult := WithdrawResultOf Int

/-- Sum of the amounts of the records of one kind in a history. -/
def sumOf (k : TxType) (txs : List Transaction) : Int :=
  ((txs.filter (fun t => decide (t.type = k))).map (fun t => t.amount)).sum

/-- The ledger equation and non-negativity for one wallet. -/
def WalletOf.Balanced (w : Wallet) : Prop :=
  w.balance = sumOf .credit w.transactions - sumOf .debit w.transactions ∧ 0 ≤ w.balance


/-! ## Predicates used in the statements -/

/-- Every wallet of the map satisfies the ledger equation and is non-negative. -/
def LedgerInv (m : UserId → Option Wallet) : Prop :=
  ∀ u w, m u = some w → w.Balanced

/-- The store `post` is the store `s`, except that the withdrawal log of `u`, if it
was absent in `s`, may have been created empty: users, referrals and wallets are the
same, every log has the same entries, and no other key of `withdrawals` differs. -/
def SameButEmptyLog (s post : State) (u : UserId) : Prop :=
  post.users = s.users ∧ post.referrals = s.referrals ∧ post.wallets = s.wallets ∧
  (∀ v, logEntries post v = logEntries s v) ∧
  (∀ v, v ≠ u → post.withdrawals v = s.withdrawals v) ∧
  (post.withdrawals u = s.withdrawals u ∨
    (s.withdrawals u = none ∧ post.withdrawals u = some []))

/-- The daily cap that `canWithdraw` applies to a role: the count must be below 1
for a customer, below 3 for a vendor, and no count passes for another role. -/
def cap : Role → Nat
  | .customer => 1
  | .vendor => 3
  | .other _ => 0

/-! ## A concrete run: customer 1 refers vendor 2 -/

/-- After `POST /register` of customer 1. -/
def run1 : State := register StateOf.empty 1 .customer "C"

/-- After `POST /initiate-referral` by customer 1, vendor id 2. -/
def run2 : State := initiateReferral run1 ⟨7, 0⟩ 2 (.id 1) "V" "L"

/-- After `POST /vendor-register` for vendor id 2. -/
def run3 : State := (vendorRegister run2 ⟨7, 1⟩ 2 ⟨none, none, "V"⟩ (some true)).1

/-- After customer 1 withdraws 120 on day 7. -/
def run4 : State := (withdraw run3 ⟨7, 2⟩ 1 120).1

/-! ## The sweep as the claims describe it, and further predicates -/

/-- The sweep step in the words of the sweeper's contract: a user whose balance is
positive and who passes `canWithdraw` is handed to the withdraw operation with the
current balance as amount, whose outcome is ignored; any other user is skipped. -/
def sweepUserViaWithdraw (now : Timestamp) (s : State) (user : User) : State :=
  if 0 < (getWallet s user.id).balance ∧ (canWithdraw s now user.id user.type).2 = true then
    (withdraw s now user.id (getWallet s user.id).balance).1
  else s

/-- The sweep in the words of the sweeper's contract: every user in registry order
goes through `sweepUserViaWithdraw`. -/
def sweepViaWithdraw (s : State) (now : Timestamp) : State :=
  s.users.foldl (sweepUserViaWithdraw now) s

/-- Two stores agree on the users, the referrals, the wallets and the entries of
every withdrawal log. -/
def SameLedger (s t : State) : Prop :=
  s.users = t.users ∧ s.referrals = t.referrals ∧ s.wallets = t.wallets ∧
  ∀ v, logEntries s v = logEntries t v

/-- Number of debit records in a history. -/
def debitCount (txs : List Transaction) : Nat :=
  (txs.filter (fun t => decide (t.type = .debit))).length

/-- The history `after` is the history `before` followed by further records. -/
def Extends (before after : List Transaction) : Prop :=
  ∃ more, after = before ++ more

/-! ## Further concrete runs -/

/-- After customer 1 has referred a second vendor, id 3. -/
def run5 : State := initiateReferral run3 ⟨7, 2⟩ 3 (.id 1) "W" "L"

/-- After `POST /vendor-register` for vendor id 3: customer 1 holds 240. -/
def run6 : State := (vendorRegister run5 ⟨7, 3⟩ 3 ⟨none, none, "W"⟩ (some true)).1

/-- After customer 1 withdraws 130 on day 7: customer 1 holds 110. -/
def run7 : State := (withdraw run6 ⟨7, 4⟩ 1 130).1

/-- After `POST /register` of user 5 with `type: 'admin'`. -/
def adm1 : State := register StateOf.empty 5 (.other "admin") "A"

/-- After `POST /initiate-referral` by user 5, vendor id 6. -/
def adm2 : State := initiateReferral adm1 ⟨7, 0⟩ 6 (.id 5) "V" "L"

/-- After `POST /vendor-register` for vendor id 6: user 5 holds 120. -/
def adm3 : State := (vendorRegister adm2 ⟨7, 1⟩ 6 ⟨none, none, "V"⟩ (some true)).1

/-- After customer 1, who has referred vendor 2, refers a second vendor, id 3. -/
def dup3 : State := initiateReferral run2 ⟨7, 1⟩ 3 (.id 1) "W" "L"

/-- After `POST /vendor-register` for vendor id 2 with `vendorDetails = { id: 1 }`:
the pushed user has id 1 and role vendor, next to the customer of id 1. -/
def dup4 : State := (vendorRegister dup3 ⟨7, 2⟩ 2 ⟨some 1, none, "V"⟩ (some true)).1

/-- After `POST /vendor-register` for vendor id 3: the wallet of id 1 holds 240. -/
def dup5 : State := (vendorRegister dup4 ⟨7, 3⟩ 3 ⟨none, none, "W"⟩ (some true)).1

/-- After customer 1 withdraws 120 on day 7: the wallet holds 120, the log has one
entry dated day 7. -/
def dup6 : State := (withdraw dup5 ⟨7, 4⟩ 1 120).1

/-- After the sweep of day 7. -/
def dup7 : State := eodAutoWithdraw dup6 ⟨7, 5⟩

/-- After its sweep step a user with positive balance has a log and fails
`canWithdraw`: nothing is left to sweep for that user on that day. -/
def Settled (now : Timestamp) (s : State) (x : User) : Prop :=
  0 < (getWallet s x.id).balance →
    s.withdrawals x.id ≠ none ∧ (canWithdraw s now x.id x.type).2 = false

/-- For every id the withdrawal log has as many entries as the wallet history has
debit records. -/
def LogInv (s : State) : Prop :=
  ∀ id, (logEntries s id).length = debitCount (getWallet s id).transactions

/-- Every credit record of every wallet has amount 120 and every debit record has a
non-negative amount. -/
def AmountInv (m : UserId → Option Wallet) : Prop :=
  ∀ id w, m id = some w → ∀ t ∈ w.transactions,
    (t.type = .credit → t.amount = 120) ∧ (t.type = .debit → 0 ≤ t.amount)

/-- Every wallet of `s` is still a wallet of `post`, with a history that starts with
the history it had in `s`. -/
def HistoryKept (s post : State) : Prop :=
  ∀ id w, s.wallets id = some w →
    ∃ w1, post.wallets id = some w1 ∧ Extends w.transactions w1.transactions

/-! ## The doubles of the program

JavaScript numbers are IEEE-754 doubles. The definitions below give the model its
second instance: the handlers computing as the program does on amounts that are not
whole, or not numbers at all. -/

/-- A number of the program as JavaScript holds it: the IEEE-754 double
`mant * 2 ^ expo`, kept with `mant` odd (or `mant = 0` and `expo = 0`), or NaN.
Exponent overflow, subnormal numbers and the sign of zero are not modelled. NaN also
stands for a request field that is absent: the comparisons and `-=` convert
`undefined` to NaN. -/
inductive Dbl where
  | fin (mant : Int) (expo : Int)
  | nan
  deriving DecidableEq, Repr

/-- Number of binary digits of a natural number below `2 ^ fuel`. -/
def Dbl.bits : Nat → Nat → Nat
  | 0, _ => 0
  | fuel + 1, n => if n = 0 then 0 else Dbl.bits fuel (n / 2) + 1

/-- The double `m * 2 ^ e` with the factors of two moved from `m` to the exponent. -/
def Dbl.trim : Nat → Int → Int → Dbl
  | 0, m, e => .fin m e
  | fuel + 1, m, e =>
    if m = 0 then .fin 0 0
    else if m % 2 = 0 then Dbl.trim fuel (m / 2) (e + 1)
    else .fin m e

/-- The double nearest to the number `m * 2 ^ e`: 53 significant binary digits,
ties to the even mantissa. -/
def Dbl.round (m : Int) (e : Int) : Dbl :=
  let n := m.natAbs
  let b := Dbl.bits 2200 n
  if b ≤ 53 then Dbl.trim 2200 m e
  else
    let sh := b - 53
    let q := n / 2 ^ sh
    let r := n % 2 ^ sh
    let half := 2 ^ (sh - 1)
    let q1 := if half < r ∨ (r = half ∧ q % 2 = 1) then q + 1 else q
    Dbl.trim 2200 (if m < 0 then -(q1 : Int) else (q1 : Int)) (e + (sh : Int))

/-- The mantissas of two doubles over their common exponent `min e1 e2`. -/
def Dbl.align (m1 e1 m2 e2 : Int) : Int × Int × Int :=
  let e := min e1 e2
  (m1 * ((2 ^ (e1 - e).toNat : Nat) : Int), m2 * ((2 ^ (e2 - e).toNat : Nat) : Int), e)

/-- JavaScript `a + b` on numbers. -/
def Dbl.add : Dbl → Dbl → Dbl
  | .fin m1 e1, .fin m2 e2 =>
    let a := Dbl.align m1 e1 m2 e2
    Dbl.round (a.1 + a.2.1) a.2.2
  | _, _ => .nan

/-- JavaScript `a - b` on numbers. -/
def Dbl.sub : Dbl → Dbl → Dbl
  | .fin m1 e1, .fin m2 e2 =>
    let a := Dbl.align m1 e1 m2 e2
    Dbl.round (a.1 - a.2.1) a.2.2
  | _, _ => .nan

/-- JavaScript `a < b` on numbers: false when either is NaN. -/
def Dbl.lt : Dbl → Dbl → Bool
  | .fin m1 e1, .fin m2 e2 =>
    let a := Dbl.align m1 e1 m2 e2
    decide (a.1 < a.2.1)
  | _, _ => false

/-- JavaScript `a <= b` on numbers: false when either is NaN. -/
def Dbl.le : Dbl → Dbl → Bool
  | .fin m1 e1, .fin m2 e2 =>
    let a := Dbl.align m1 e1 m2 e2
    decide (a.1 ≤ a.2.1)
  | _, _ => false

instance : Add Dbl := ⟨Dbl.add⟩

instance : Sub Dbl := ⟨Dbl.sub⟩

instance : LT Dbl := ⟨fun a b => Dbl.lt a b = true⟩

instance : LE Dbl := ⟨fun a b => Dbl.le a b = true⟩

instance : DecidableRel (fun a b : Dbl => a < b) :=
  fun a b => inferInstanceAs (Decidable (Dbl.lt a b = true))

instance : DecidableRel (fun a b : Dbl => a ≤ b) :=
  fun a b => inferInstanceAs (Decidable (Dbl.le a b = true))

instance (n : Nat) : OfNat Dbl n := ⟨Dbl.round n 0⟩

/-- The rational number a double stands for (0 for NaN). -/
def Dbl.toRat : Dbl → ℚ
  | .fin m e => if 0 ≤ e then (m : ℚ) * 2 ^ e.toNat else (m : ℚ) / 2 ^ (-e).toNat
  | .nan => 0

/-- The double that the JSON number `0.1` parses to. -/
def Dbl.tenth : Dbl := .fin 3602879701896397 (-55)

/-- Exact sum of the amounts of the records of one kind in a history of doubles. -/
def Dbl.exactSum (k : TxType) (txs : List (TransactionOf Dbl)) : ℚ :=
  ((txs.filter (fun t => decide (t.type = k))).map (fun t => t.amount.toRat)).sum

/-- Sum of the amounts of the records of one kind, added up in doubles from 0. -/
def Dbl.sum (k : TxType) (txs : List (TransactionOf Dbl)) : Dbl :=
  (txs.filter (fun t => decide (t.type = k))).foldl (fun acc t => acc + t.amount) 0

/-! ## A run with amounts that are not whole -/

/-- After customer 1 registers. -/
def flt1 : StateOf Dbl := register StateOf.empty 1 .customer "C"

/-- After customer 1 refers the vendor that receives id 2. -/
def flt2 : StateOf Dbl := initiateReferral flt1 ⟨7, 0⟩ 2 (.id 1) "V" "L"

/-- After `POST /vendor-register` for vendor id 2: vendor 2 holds 120. -/
def flt3 : StateOf Dbl := (vendorRegister flt2 ⟨7, 1⟩ 2 ⟨none, none, "V"⟩ (some true)).1

/-- After vendor 2 withdraws 0.1 on day 7. -/
def flt4 : StateOf Dbl := (withdraw flt3 ⟨7, 2⟩ 2 Dbl.tenth).1

/-- After vendor 2 withdraws 0.1 a second time on day 7. -/
def flt5 : StateOf Dbl := (withdraw flt4 ⟨7, 3⟩ 2 Dbl.tenth).1

/-- After vendor 2 withdraws 0.1 a third time on day 7. -/
def flt6 : StateOf Dbl := (withdraw flt5 ⟨7, 4⟩ 2 Dbl.tenth).1

/-- After `POST /withdraw` for vendor 2 with a body that has no `amount`. -/
def flt7 : StateOf Dbl := (withdraw flt3 ⟨7, 2⟩ 2 Dbl.nan).1

/-! ## Frame lemmas for the utility functions -/

theorem setKey_same {α : Type} (m : UserId → Option α) (k : UserId) (v : α) :
    setKey m k v k = some v := by
  simp [setKey]

theorem setKey_other {α : Type} (m : UserId → Option α) (k : UserId) (v : α) (i : UserId)
    (h : i ≠ k) : setKey m k v i = m i := by
  simp [setKey, h]

theorem canWithdraw_users (s : State) (now : Timestamp) (u : UserId) (r : Role) :
    (canWithdraw s now u r).1.users = s.users := by
  unfold canWithdraw
  cases r <;> cases h : s.withdrawals u <;> simp

theorem canWithdraw_referrals (s : State) (now : Timestamp) (u : UserId) (r : Role) :
    (canWithdraw s now u r).1.referrals = s.referrals := by
  unfold canWithdraw
  cases r <;> cases h : s.withdrawals u <;> simp

theorem canWithdraw_wallets (s : State) (now : Timestamp) (u : UserId) (r : Role) :
    (canWithdraw s now u r).1.wallets = s.wallets := by
  unfold canWithdraw
  cases r <;> cases h : s.withdrawals u <;> simp

/-- The store after `canWithdraw`: unchanged when the log exists, otherwise the
log of the user is created empty. -/
theorem canWithdraw_state (s : State) (now : Timestamp) (u : UserId) (r : Role) :
    (canWithdraw s now u r).1 =
      match s.withdrawals u with
      | none => { s with withdrawals := setKey s.withdrawals u [] }
      | some _ => s := by
  unfold canWithdraw
  cases r <;> cases h : s.withdrawals u <;> simp

theorem canWithdraw_logEntries (s : State) (now : Timestamp) (u : UserId) (r : Role)
    (v : UserId) : logEntries (canWithdraw s now u r).1 v = logEntries s v := by
  rw [canWithdraw_state]
  cases h : s.withdrawals u with
  | none =>
    by_cases hv : v = u
    · subst hv; simp [logEntries, setKey, h]
    · simp [logEntries, setKey, hv]
  | some l => rfl

/-- The boolean returned by `canWithdraw`, in terms of the day's count. -/
theorem canWithdraw_result (s : State) (now : Timestamp) (u : UserId) (r : Role) :
    (canWithdraw s now u r).2 =
      match r with
      | .customer => decide (withdrawalsOn s u now.day < 1)
      | .vendor => decide (withdrawalsOn s u now.day < 3)
      | .other _ => false := by
  unfold canWithdraw withdrawalsOn logEntries
  cases r <;> cases h : s.withdrawals u <;> simp [setKey, h]

theorem logWithdraw_users (s : State) (now : Timestamp) (u : UserId) :
    (logWithdraw s now u).users = s.users := rfl

theorem logWithdraw_referrals (s : State) (now : Timestamp) (u : UserId) :
    (logWithdraw s now u).referrals = s.referrals := rfl

theorem logWithdraw_wallets (s : State) (now : Timestamp) (u : UserId) :
    (logWithdraw s now u).wallets = s.wallets := rfl

theorem logWithdraw_logEntries_same (s : State) (now : Timestamp) (u : UserId) :
    logEntries (logWithdraw s now u) u = logEntries s u ++ [now] := by
  simp [logEntries, logWithdraw, setKey]

theorem logWithdraw_withdrawals_other (s : State) (now : Timestamp) (u v : UserId)
    (h : v ≠ u) : (logWithdraw s now u).withdrawals v = s.withdrawals v := by
  simp [logWithdraw, setKey, h]

theorem withdrawUser_users (s : State) (now : Timestamp) (u : UserId) (a : Int) :
    (withdrawUser s now u a).1.users = s.users := by
  unfold withdrawUser
  cases h : s.wallets u with
  | none => rfl
  | some w => by_cases hb : w.balance < a <;> simp [hb]

theorem withdrawUser_referrals (s : State) (now : Timestamp) (u : UserId) (a : Int) :
    (withdrawUser s now u a).1.referrals = s.referrals := by
  unfold withdrawUser
  cases h : s.wallets u with
  | none => rfl
  | some w => by_cases hb : w.balance < a <;> simp [hb]

theorem withdrawUser_withdrawals (s : State) (now : Timestamp) (u : UserId) (a : Int) :
    (withdrawUser s now u a).1.withdrawals = s.withdrawals := by
  unfold withdrawUser
  cases h : s.wallets u with
  | none => rfl
  | some w => by_cases hb : w.balance < a <;> simp [hb]

/-- A declined `withdrawUser` leaves the store as it was. -/
theorem withdrawUser_false (s : State) (now : Timestamp) (u : UserId) (a : Int)
    (h : (withdrawUser s now u a).2 = false) : (withdrawUser s now u a).1 = s := by
  unfold withdrawUser at h ⊢
  cases hw : s.wallets u with
  | none => rfl
  | some w =>
    rw [hw] at h
    by_cases hb : w.balance < a
    · simp [hb]
    · simp [hb] at h

/-- When `withdrawUser` declines and when it debits. -/
theorem withdrawUser_result (s : State) (now : Timestamp) (u : UserId) (a : Int) :
    (withdrawUser s now u a).2 = false ↔
      (s.wallets u = none ∨ ∃ w, s.wallets u = some w ∧ w.balance < a) := by
  unfold withdrawUser
  cases hw : s.wallets u with
  | none => simp
  | some w => by_cases hb : w.balance < a <;> simp [hb]

/-- The store after a `withdrawUser` that debits. -/
theorem withdrawUser_true (s : State) (now : Timestamp) (u : UserId) (a : Int) (w : Wallet)
    (hw : s.wallets u = some w) (hb : a ≤ w.balance) :
    withdrawUser s now u a =
      (StateOf.mk s.users s.referrals
        (setKey s.wallets u ⟨w.balance - a, w.transactions ++ [TransactionOf.mk .debit a now]⟩)
        s.withdrawals, true) := by
  unfold withdrawUser
  rw [hw]
  have : ¬ w.balance < a := not_lt.mpr hb
  simp [this]


/-! ## The ledger equation -/

theorem sumOf_append (k : TxType) (txs : List Transaction) (t : Transaction) :
    sumOf k (txs ++ [t]) = sumOf k txs + (if t.type = k then t.amount else 0) := by
  unfold sumOf
  by_cases h : t.type = k <;> simp [List.filter_append, h]

theorem Balanced_zero : WalletOf.zero.Balanced := by
  simp [WalletOf.Balanced, WalletOf.zero, sumOf]

theorem Balanced_credit (w : Wallet) (a : Int) (now : Timestamp) (h : w.Balanced)
    (ha : 0 ≤ a) :
    WalletOf.Balanced ⟨w.balance + a, w.transactions ++ [TransactionOf.mk .credit a now]⟩ := by
  obtain ⟨h1, h2⟩ := h
  refine ⟨?_, ?_⟩
  · simp only [sumOf_append]
    simp
    omega
  · simp
    omega

theorem Balanced_debit (w : Wallet) (a : Int) (now : Timestamp) (h : w.Balanced)
    (ha : a ≤ w.balance) :
    WalletOf.Balanced ⟨w.balance - a, w.transactions ++ [TransactionOf.mk .debit a now]⟩ := by
  obtain ⟨h1, h2⟩ := h
  refine ⟨?_, ?_⟩
  · simp only [sumOf_append]
    simp
    omega
  · simp
    omega

theorem LedgerInv_setKey (m : UserId → Option Wallet) (k : UserId) (w : Wallet)
    (hm : LedgerInv m) (hw : w.Balanced) : LedgerInv (setKey m k w) := by
  intro u w1 h
  by_cases hu : u = k
  · subst hu
    rw [setKey_same] at h
    cases h
    exact hw
  · rw [setKey_other _ _ _ _ hu] at h
    exact hm u w1 h

theorem credited_ledger (s : State) (now : Timestamp) (u : UserId) (a : Int)
    (h : LedgerInv s.wallets) (ha : 0 ≤ a) : LedgerInv (credited s now u a).wallets := by
  unfold credited
  apply LedgerInv_setKey _ _ _ h
  apply Balanced_credit _ _ _ _ ha
  cases hw : s.wallets u with
  | none => exact Balanced_zero
  | some w => exact h u w hw

theorem withdrawUser_ledger (s : State) (now : Timestamp) (u : UserId) (a : Int)
    (h : LedgerInv s.wallets) : LedgerInv (withdrawUser s now u a).1.wallets := by
  unfold withdrawUser
  cases hw : s.wallets u with
  | none => exact h
  | some w =>
    by_cases hb : w.balance < a
    · simpa [hb] using h
    · simp only [hb, if_false]
      exact LedgerInv_setKey _ _ _ h (Balanced_debit w a now (h u w hw) (not_lt.mp hb))

theorem withdraw_ledger (s : State) (now : Timestamp) (u : UserId) (a : Int)
    (h : LedgerInv s.wallets) : LedgerInv (withdraw s now u a).1.wallets := by
  unfold withdraw
  cases hf : s.users.find? (fun x => decide (x.id = u)) with
  | none => exact h
  | some user =>
    have hc : LedgerInv (canWithdraw s now u user.type).1.wallets := by
      rw [canWithdraw_wallets]; exact h
    simp only
    split_ifs
    · exact hc
    · exact hc
    · exact withdrawUser_ledger _ _ _ _ hc
    · rw [logWithdraw_wallets]
      exact withdrawUser_ledger _ _ _ _ hc

theorem eodUser_ledger (now : Timestamp) (s : State) (user : User)
    (h : LedgerInv s.wallets) : LedgerInv (eodUser now s user).wallets := by
  unfold eodUser
  have hc : LedgerInv (canWithdraw s now user.id user.type).1.wallets := by
    rw [canWithdraw_wallets]; exact h
  split
  · exact h
  · simp only
    split_ifs
    · rw [logWithdraw_wallets]
      exact withdrawUser_ledger _ _ _ _ hc
    · exact hc
    · exact h

theorem eodFold_ledger (now : Timestamp) (us : List User) (s : State)
    (h : LedgerInv s.wallets) : LedgerInv (us.foldl (eodUser now) s).wallets := by
  induction us generalizing s with
  | nil => exact h
  | cons x xs ih => exact ih _ (eodUser_ledger now s x h)

theorem vendorRegister_notFound (s : State) (now : Timestamp) (v : UserId) (d : VendorDetails)
    (ag : Option Bool) (hf : s.referrals.find? (fun r => decide (r.vendorId = v)) = none) :
    vendorRegister s now v d ag = (s, .notFound) := by
  unfold vendorRegister
  rw [hf]

/-- A vendor registration whose referral names an ordinary referrer: both are
credited and the reply is the confirmation. -/
theorem vendorRegister_found (s : State) (now : Timestamp) (v : UserId) (d : VendorDetails)
    (ag : Option Bool) (r : Referral) (c : UserId)
    (hf : s.referrals.find? (fun r => decide (r.vendorId = v)) = some r)
    (hc : r.customerId = .id c) :
    vendorRegister s now v d ag =
      (credited (credited (enrolled s v d ag) now c 120) now v 120, .rewarded) := by
  unfold vendorRegister
  rw [hf]
  simp [hc, rewardUser]

/-- A vendor registration whose referral names an inherited key as referrer: the
user is pushed, the referral marked, nobody is credited, the reply is status 500. -/
theorem vendorRegister_threw (s : State) (now : Timestamp) (v : UserId) (d : VendorDetails)
    (ag : Option Bool) (r : Referral) (name : String)
    (hf : s.referrals.find? (fun r => decide (r.vendorId = v)) = some r)
    (hc : r.customerId = .inherited name) :
    vendorRegister s now v d ag = (enrolled s v d ag, .serverError) := by
  unfold vendorRegister
  rw [hf]
  simp [hc, rewardUser]

/-- The store after a vendor registration: the store before, the store with the
user pushed and the referral marked, or that store with both wallets credited. -/
theorem vendorRegister_cases (s : State) (now : Timestamp) (v : UserId) (d : VendorDetails)
    (ag : Option Bool) :
    (vendorRegister s now v d ag).1 = s ∨
    (vendorRegister s now v d ag).1 = enrolled s v d ag ∨
    ∃ c, (vendorRegister s now v d ag).1 =
      credited (credited (enrolled s v d ag) now c 120) now v 120 := by
  cases hf : s.referrals.find? (fun r => decide (r.vendorId = v)) with
  | none => left; rw [vendorRegister_notFound s now v d ag hf]
  | some r =>
    cases hc : r.customerId with
    | id c => right; right; exact ⟨c, by rw [vendorRegister_found s now v d ag r c hf hc]⟩
    | inherited name => right; left; rw [vendorRegister_threw s now v d ag r name hf hc]

theorem vendorRegister_ledger (s : State) (now : Timestamp) (v : UserId) (d : VendorDetails)
    (ag : Option Bool) (h : LedgerInv s.wallets) :
    LedgerInv (vendorRegister s now v d ag).1.wallets := by
  rcases vendorRegister_cases s now v d ag with e | e | ⟨c, e⟩
  · rw [e]; exact h
  · rw [e]; exact h
  · rw [e]
    apply credited_ledger _ _ _ _ _ (by decide)
    apply credited_ledger _ _ _ _ _ (by decide)
    exact h

theorem reachable_ledger (s : State) (h : Reachable s) : LedgerInv s.wallets := by
  induction h with
  | init => intro u w h; simp [StateOf.empty] at h
  | register id type profile _ _ ih =>
    exact LedgerInv_setKey _ _ _ ih Balanced_zero
  | initiateReferral now vendorId customerId vendorName vendorLocation _ _ ih => exact ih
  | vendorRegister now vendorId vendorDetails agreementAccepted _ ih =>
    exact vendorRegister_ledger _ _ _ _ _ ih
  | withdraw now userId amount _ ih => exact withdraw_ledger _ _ _ _ ih
  | eodAutoWithdraw now _ ih => exact eodFold_ledger _ _ _ ih

/-- Claim C1, amended. In every state reachable from the empty store by register,
initiate-referral, vendor-register, withdraw and end-of-day sweep requests whose
amounts are whole numbers, every wallet has balance equal to the sum of its credit
amounts minus the sum of its debit amounts, and the balance is not negative. -/
theorem ledger_invariant (s : State) (h : Reachable s) (userId : UserId) (w : Wallet)
    (hw : s.wallets userId = some w) :
    w.balance = sumOf .credit w.transactions - sumOf .debit w.transactions ∧ 0 ≤ w.balance :=
  reachable_ledger s h userId w hw


/-! ## The concrete run is reachable -/

theorem fresh_empty (id : UserId) : Fresh (StateOf.empty : State) id := by
  simp [Fresh, StateOf.empty]

theorem reachable_run1 : Reachable run1 :=
  Reachable.register 1 .customer "C" Reachable.init (fresh_empty 1)

theorem fresh_run1 : Fresh run1 2 := by
  unfold Fresh run1 register StateOf.empty
  decide

theorem reachable_run2 : Reachable run2 :=
  Reachable.initiateReferral ⟨7, 0⟩ 2 (.id 1) "V" "L" reachable_run1 fresh_run1

theorem reachable_run3 : Reachable run3 :=
  Reachable.vendorRegister ⟨7, 1⟩ 2 ⟨none, none, "V"⟩ (some true) reachable_run2

theorem reachable_run4 : Reachable run4 :=
  Reachable.withdraw ⟨7, 2⟩ 1 120 reachable_run3

theorem run4_wallet :
    run4.wallets 1 = some ⟨0, [⟨.credit, 120, ⟨7, 1⟩⟩, ⟨.debit, 120, ⟨7, 2⟩⟩]⟩ := by
  decide

/-- Witness for `ledger_invariant`: the wallet of customer 1 after a reward of 120
and a withdrawal of 120. -/
theorem ledger_invariant_witness :
    Reachable run4 ∧
    run4.wallets 1 = some ⟨0, [⟨.credit, 120, ⟨7, 1⟩⟩, ⟨.debit, 120, ⟨7, 2⟩⟩]⟩ ∧
    ((0 : Int) = sumOf .credit [⟨.credit, 120, ⟨7, 1⟩⟩, ⟨.debit, 120, ⟨7, 2⟩⟩]
        - sumOf .debit [⟨.credit, 120, ⟨7, 1⟩⟩, ⟨.debit, 120, ⟨7, 2⟩⟩] ∧ (0 : Int) ≤ 0) :=
  ⟨reachable_run4, run4_wallet, ledger_invariant run4 reachable_run4 1 _ run4_wallet⟩


/-! ## The five outcomes of `POST /withdraw` -/

theorem withdraw_notFound (s : State) (now : Timestamp) (u : UserId) (a : Int)
    (hf : s.users.find? (fun x => decide (x.id = u)) = none) :
    withdraw s now u a = (s, .notFound) := by
  unfold withdraw
  rw [hf]

theorem withdraw_limitExceeded (s : State) (now : Timestamp) (u : UserId) (a : Int)
    (user : User) (hf : s.users.find? (fun x => decide (x.id = u)) = some user)
    (hc : (canWithdraw s now u user.type).2 = false) :
    withdraw s now u a = ((canWithdraw s now u user.type).1, .limitExceeded) := by
  unfold withdraw
  rw [hf]
  simp [hc]

theorem withdraw_belowMinimum (s : State) (now : Timestamp) (u : UserId) (a : Int)
    (user : User) (hf : s.users.find? (fun x => decide (x.id = u)) = some user)
    (hc : (canWithdraw s now u user.type).2 = true) (hm : a < minAmount user.type) :
    withdraw s now u a = ((canWithdraw s now u user.type).1, .belowMinimum) := by
  unfold withdraw
  rw [hf]
  simp [hc, hm]

theorem withdraw_insufficient (s : State) (now : Timestamp) (u : UserId) (a : Int)
    (user : User) (hf : s.users.find? (fun x => decide (x.id = u)) = some user)
    (hc : (canWithdraw s now u user.type).2 = true) (hm : ¬ a < minAmount user.type)
    (hw : s.wallets u = none ∨ ∃ w, s.wallets u = some w ∧ w.balance < a) :
    withdraw s now u a = ((canWithdraw s now u user.type).1, .insufficientBalance) := by
  have hd : (withdrawUser (canWithdraw s now u user.type).1 now u a).2 = false := by
    rw [withdrawUser_result, canWithdraw_wallets]
    exact hw
  unfold withdraw
  rw [hf]
  simp only [hc, hm, hd, if_true, if_false]
  rw [withdrawUser_false _ _ _ _ hd]
  simp

theorem withdraw_success (s : State) (now : Timestamp) (u : UserId) (a : Int)
    (user : User) (hf : s.users.find? (fun x => decide (x.id = u)) = some user)
    (hc : (canWithdraw s now u user.type).2 = true) (hm : ¬ a < minAmount user.type)
    (w : Wallet) (hw : s.wallets u = some w) (hb : a ≤ w.balance) :
    withdraw s now u a =
      (StateOf.mk s.users s.referrals
        (setKey s.wallets u ⟨w.balance - a, w.transactions ++ [TransactionOf.mk .debit a now]⟩)
        (setKey s.withdrawals u (logEntries s u ++ [now])),
       .success (w.balance - a)) := by
  have hw1 : (canWithdraw s now u user.type).1.wallets u = some w := by
    rw [canWithdraw_wallets]; exact hw
  have hl := canWithdraw_logEntries s now u user.type u
  have hs := canWithdraw_state s now u user.type
  unfold withdraw
  rw [hf]
  simp only [hc, hm, if_false]
  rw [withdrawUser_true _ _ _ _ w hw1 hb]
  simp only [logWithdraw, getWallet, setKey_same, Option.getD_some, canWithdraw_users,
    canWithdraw_referrals, canWithdraw_wallets]
  unfold logEntries at hl
  have hk : setKey (canWithdraw s now u user.type).1.withdrawals u
      (((canWithdraw s now u user.type).1.withdrawals u).getD [] ++ [now]) =
      setKey s.withdrawals u (logEntries s u ++ [now]) := by
    funext i
    by_cases hi : i = u
    · subst hi; simp [setKey, hl, logEntries]
    · rw [setKey_other _ _ _ _ hi, setKey_other _ _ _ _ hi, hs]
      cases hx : s.withdrawals u <;> simp [setKey, hi]
  simp [hk]


/-! ## Failed withdrawals -/

theorem sameButEmptyLog_refl (s : State) (u : UserId) : SameButEmptyLog s s u :=
  ⟨rfl, rfl, rfl, fun _ => rfl, fun _ _ => rfl, Or.inl rfl⟩

theorem canWithdraw_sameButEmptyLog (s : State) (now : Timestamp) (u : UserId) (r : Role) :
    SameButEmptyLog s (canWithdraw s now u r).1 u := by
  refine ⟨canWithdraw_users _ _ _ _, canWithdraw_referrals _ _ _ _, canWithdraw_wallets _ _ _ _,
    canWithdraw_logEntries _ _ _ _, ?_, ?_⟩
  · intro v hv
    rw [canWithdraw_state]
    cases h : s.withdrawals u <;> simp [setKey, hv]
  · rw [canWithdraw_state]
    cases h : s.withdrawals u <;> simp [setKey, h]

/-- A withdraw request ends in one of the five outcomes, with the store that goes
with it. -/
theorem withdraw_cases (s : State) (now : Timestamp) (u : UserId) (a : Int) :
    withdraw s now u a = (s, .notFound) ∨
    (∃ user, s.users.find? (fun x => decide (x.id = u)) = some user ∧
      (withdraw s now u a = ((canWithdraw s now u user.type).1, .limitExceeded) ∨
       withdraw s now u a = ((canWithdraw s now u user.type).1, .belowMinimum) ∨
       withdraw s now u a = ((canWithdraw s now u user.type).1, .insufficientBalance) ∨
       ∃ w, s.wallets u = some w ∧ a ≤ w.balance ∧
         (withdraw s now u a).2 = .success (w.balance - a))) := by
  cases hf : s.users.find? (fun x => decide (x.id = u)) with
  | none => exact Or.inl (withdraw_notFound s now u a hf)
  | some user =>
    refine Or.inr ⟨user, rfl, ?_⟩
    cases hc : (canWithdraw s now u user.type).2 with
    | false => exact Or.inl (withdraw_limitExceeded s now u a user hf hc)
    | true =>
      by_cases hm : a < minAmount user.type
      · exact Or.inr (Or.inl (withdraw_belowMinimum s now u a user hf hc hm))
      · cases hw : s.wallets u with
        | none =>
          exact Or.inr (Or.inr (Or.inl
            (withdraw_insufficient s now u a user hf hc hm (Or.inl hw))))
        | some w =>
          by_cases hb : w.balance < a
          · exact Or.inr (Or.inr (Or.inl
              (withdraw_insufficient s now u a user hf hc hm (Or.inr ⟨w, hw, hb⟩))))
          · refine Or.inr (Or.inr (Or.inr ⟨w, rfl, not_lt.mp hb, ?_⟩))
            rw [withdraw_success s now u a user hf hc hm w hw (not_lt.mp hb)]

/-- A withdraw request that does not succeed leaves the store as it was, up to the
creation of an empty log for the requesting user. -/
theorem withdraw_failure_frame (s : State) (now : Timestamp) (u : UserId) (a : Int)
    (hfail : ∀ b, (withdraw s now u a).2 ≠ .success b) :
    SameButEmptyLog s (withdraw s now u a).1 u := by
  rcases withdraw_cases s now u a with h | ⟨user, _, h | h | h | ⟨w, _, _, h⟩⟩
  · rw [h]; exact sameButEmptyLog_refl s u
  · rw [h]; exact canWithdraw_sameButEmptyLog s now u user.type
  · rw [h]; exact canWithdraw_sameButEmptyLog s now u user.type
  · rw [h]; exact canWithdraw_sameButEmptyLog s now u user.type
  · exact absurd h (hfail _)

/-- Claim C2, as stated, fails: customer 1, registered and with no withdrawal log
yet, asks for 5; the request fails with `belowMinimum`, and the store now holds an
empty withdrawal log for customer 1 where it held none. -/
theorem failed_withdraw_creates_log :
    (withdraw run1 ⟨7, 0⟩ 1 5).2 = .belowMinimum ∧
    run1.withdrawals 1 = none ∧
    (withdraw run1 ⟨7, 0⟩ 1 5).1.withdrawals 1 = some [] ∧
    (withdraw run1 ⟨7, 0⟩ 1 5).1 ≠ run1 := by
  refine ⟨by decide, by decide, by decide, ?_⟩
  intro h
  have h1 : (withdraw run1 ⟨7, 0⟩ 1 5).1.withdrawals 1 = run1.withdrawals 1 := by rw [h]
  revert h1
  decide

/-- Claim C2, amended. A withdraw request that ends in any failure (not found, limit
exceeded, below minimum, insufficient balance) leaves the users, the referrals and
every wallet (balance and history) unchanged, and every withdrawal log keeps the
same entries; the only possible change is that the log of the requesting user, when
absent, is created empty. -/
theorem failed_withdraw_frame (s : State) (now : Timestamp) (userId : UserId) (amount : Int)
    (hfail : (withdraw s now userId amount).2 = .notFound ∨
      (withdraw s now userId amount).2 = .limitExceeded ∨
      (withdraw s now userId amount).2 = .belowMinimum ∨
      (withdraw s now userId amount).2 = .insufficientBalance) :
    SameButEmptyLog s (withdraw s now userId amount).1 userId := by
  apply withdraw_failure_frame
  intro b hb
  rw [hb] at hfail
  simp at hfail

/-- Witness for `failed_withdraw_frame`: the below-minimum request of customer 1. -/
theorem failed_withdraw_frame_witness :
    (withdraw run1 ⟨7, 0⟩ 1 5).2 = .belowMinimum ∧
    SameButEmptyLog run1 (withdraw run1 ⟨7, 0⟩ 1 5).1 1 :=
  ⟨by decide, failed_withdraw_frame run1 ⟨7, 0⟩ 1 5 (Or.inr (Or.inr (Or.inl (by decide))))⟩


/-! ## Order of the checks of `POST /withdraw` -/

theorem find_none_iff (s : State) (u : UserId) :
    s.users.find? (fun x => decide (x.id = u)) = none ↔ ∀ x ∈ s.users, x.id ≠ u := by
  simp [List.find?_eq_none]

/-- The outcome of a withdraw request by an existing user, as a cascade. -/
theorem withdraw_result (s : State) (now : Timestamp) (u : UserId) (a : Int) (user : User)
    (hf : s.users.find? (fun x => decide (x.id = u)) = some user) :
    (withdraw s now u a).2 =
      if (canWithdraw s now u user.type).2 = false then .limitExceeded
      else if a < minAmount user.type then .belowMinimum
      else match s.wallets u with
        | none => .insufficientBalance
        | some w => if w.balance < a then .insufficientBalance else .success (w.balance - a) := by
  cases hc : (canWithdraw s now u user.type).2 with
  | false => rw [withdraw_limitExceeded s now u a user hf hc]; simp
  | true =>
    by_cases hm : a < minAmount user.type
    · rw [withdraw_belowMinimum s now u a user hf hc hm]; simp [hm]
    · cases hw : s.wallets u with
      | none =>
        rw [withdraw_insufficient s now u a user hf hc hm (Or.inl hw)]; simp [hm]
      | some w =>
        by_cases hb : w.balance < a
        · rw [withdraw_insufficient s now u a user hf hc hm (Or.inr ⟨w, hw, hb⟩)]
          simp [hm, hb]
        · rw [withdraw_success s now u a user hf hc hm w hw (not_lt.mp hb)]
          simp [hm, hb]

/-- Claim C4, as stated, fails: customer 1 has balance 0 and has already withdrawn on
day 7; a request for 200 on day 7 exceeds the balance but fails with `limitExceeded`,
not with `insufficientBalance`. -/
theorem overdraw_limit_first :
    (getWallet run4 1).balance < 200 ∧
    (withdraw run4 ⟨7, 3⟩ 1 200).2 = .limitExceeded := by
  decide

/-- Claim C4, amended. A withdraw request whose amount is greater than the user's
current balance never succeeds and leaves users, referrals, wallets and the entries
of every withdrawal log unchanged (an absent log of the requesting user may be created
empty). It fails with the error of the first check that fails: `notFound` when no
user has the id; otherwise `limitExceeded` when
`canWithdraw` returns false; otherwise `belowMinimum` when the amount is below the
role's minimum; otherwise `insufficientBalance`. -/
theorem overdraw_fails (s : State) (now : Timestamp) (userId : UserId) (amount : Int)
    (h : (getWallet s userId).balance < amount) :
    (∀ b, (withdraw s now userId amount).2 ≠ .success b) ∧
    SameButEmptyLog s (withdraw s now userId amount).1 userId ∧
    ((∀ x ∈ s.users, x.id ≠ userId) → (withdraw s now userId amount).2 = .notFound) ∧
    (∀ user, s.users.find? (fun x => decide (x.id = userId)) = some user →
      ((canWithdraw s now userId user.type).2 = false →
        (withdraw s now userId amount).2 = .limitExceeded) ∧
      ((canWithdraw s now userId user.type).2 = true → amount < minAmount user.type →
        (withdraw s now userId amount).2 = .belowMinimum) ∧
      ((canWithdraw s now userId user.type).2 = true → ¬ amount < minAmount user.type →
        (withdraw s now userId amount).2 = .insufficientBalance)) := by
  have hw : s.wallets userId = none ∨ ∃ w, s.wallets userId = some w ∧ w.balance < amount := by
    cases hw : s.wallets userId with
    | none => exact Or.inl rfl
    | some w =>
      refine Or.inr ⟨w, rfl, ?_⟩
      simpa [getWallet, hw] using h
  have hns : ∀ b, (withdraw s now userId amount).2 ≠ .success b := by
    intro b hb
    rcases withdraw_cases s now userId amount with
      h1 | ⟨user, _, h1 | h1 | h1 | ⟨w, hw1, hle, _⟩⟩
    · rw [h1] at hb; cases hb
    · rw [h1] at hb; cases hb
    · rw [h1] at hb; cases hb
    · rw [h1] at hb; cases hb
    · rcases hw with hw | ⟨w2, hw2, hlt⟩
      · rw [hw] at hw1; cases hw1
      · rw [hw2] at hw1
        cases hw1
        omega
  refine ⟨hns, withdraw_failure_frame s now userId amount hns, ?_, ?_⟩
  · intro hno
    rw [withdraw_notFound s now userId amount ((find_none_iff s userId).mpr hno)]
  · intro user hf
    refine ⟨?_, ?_, ?_⟩
    · intro hc
      rw [withdraw_limitExceeded s now userId amount user hf hc]
    · intro hc hm
      rw [withdraw_belowMinimum s now userId amount user hf hc hm]
    · intro hc hm
      rw [withdraw_insufficient s now userId amount user hf hc hm hw]

/-- Witness for `overdraw_fails`: customer 1 holds 120 and asks for 130; after the
withdrawal of day 7, customer 1 holds 0 and asks for 200 on day 7. -/
theorem overdraw_fails_witness :
    (getWallet run3 1).balance < 130 ∧
    (withdraw run3 ⟨7, 2⟩ 1 130).2 = .insufficientBalance ∧
    (withdraw run4 ⟨7, 3⟩ 1 200).2 = .limitExceeded :=
  ⟨by decide,
   ((overdraw_fails run3 ⟨7, 2⟩ 1 130 (by decide)).2.2.2 ⟨1, .customer, "C"⟩
     (by decide)).2.2 (by decide) (by decide),
   ((overdraw_fails run4 ⟨7, 3⟩ 1 200 (by decide)).2.2.2 ⟨1, .customer, "C"⟩
     (by decide)).1 (by decide)⟩

/-- Claim C5. The outcome of a withdraw request is decided by the checks in order:
`notFound` iff no user has the id; otherwise, with `user` the first user of that id,
`limitExceeded` iff `canWithdraw` returns false; otherwise `belowMinimum` iff the
amount is below the minimum (120 for a customer, 0 for any other role); otherwise
`insufficientBalance` iff the wallet is absent or its balance is below the amount;
otherwise the request succeeds. -/
theorem withdraw_outcome (s : State) (now : Timestamp) (userId : UserId) (amount : Int) :
    ((withdraw s now userId amount).2 = .notFound ↔ ∀ x ∈ s.users, x.id ≠ userId) ∧
    (∀ user, s.users.find? (fun x => decide (x.id = userId)) = some user →
      ((withdraw s now userId amount).2 = .limitExceeded ↔
        (canWithdraw s now userId user.type).2 = false) ∧
      ((canWithdraw s now userId user.type).2 = true →
        ((withdraw s now userId amount).2 = .belowMinimum ↔
          amount < (if user.type = .customer then 120 else 0)) ∧
        (¬ amount < (if user.type = .customer then 120 else 0) →
          ((withdraw s now userId amount).2 = .insufficientBalance ↔
            (s.wallets userId = none ∨
              ∃ w, s.wallets userId = some w ∧ w.balance < amount)) ∧
          (¬ (s.wallets userId = none ∨
              ∃ w, s.wallets userId = some w ∧ w.balance < amount) →
            ∃ b, (withdraw s now userId amount).2 = .success b)))) := by
  refine ⟨?_, ?_⟩
  · rw [← find_none_iff]
    constructor
    · intro h
      cases hf : s.users.find? (fun x => decide (x.id = userId)) with
      | none => rfl
      | some user =>
        exfalso
        rw [withdraw_result s now userId amount user hf] at h
        revert h
        cases hc : (canWithdraw s now userId user.type).2 with
        | false => simp
        | true =>
          by_cases hm : amount < minAmount user.type
          · simp [hm]
          · cases hw : s.wallets userId with
            | none => simp [hm]
            | some w => by_cases hb : w.balance < amount <;> simp [hm, hb]
    · intro hf
      rw [withdraw_notFound s now userId amount hf]
  · intro user hf
    have hmin : (minAmount user.type : Int) = (if user.type = .customer then 120 else 0) := rfl
    rw [← hmin, withdraw_result s now userId amount user hf]
    cases hc : (canWithdraw s now userId user.type).2 with
    | false => simp
    | true =>
      by_cases hm : amount < minAmount user.type
      · simp [hm]
      · cases hw : s.wallets userId with
        | none => simp [hm]
        | some w => by_cases hb : w.balance < amount <;> simp [hm, hb]


theorem run3_wallet1 : run3.wallets 1 = some ⟨120, [⟨.credit, 120, ⟨7, 1⟩⟩]⟩ := by
  decide

theorem run3_find1 :
    run3.users.find? (fun x => decide (x.id = 1)) = some ⟨1, .customer, "C"⟩ := by
  decide

/-- Witness for `withdraw_outcome`: customer 1, holding 120 and with no withdrawal on
day 7, is past the first two checks when asking for 120. -/
theorem withdraw_outcome_witness :
    ((withdraw run3 ⟨7, 2⟩ 1 120).2 = .limitExceeded ↔
      (canWithdraw run3 ⟨7, 2⟩ 1 .customer).2 = false) ∧
    ((withdraw run3 ⟨7, 2⟩ 1 120).2 = .belowMinimum ↔
      (120 : Int) < (if Role.customer = Role.customer then 120 else 0)) :=
  ⟨((withdraw_outcome run3 ⟨7, 2⟩ 1 120).2 ⟨1, .customer, "C"⟩ run3_find1).1,
   (((withdraw_outcome run3 ⟨7, 2⟩ 1 120).2 ⟨1, .customer, "C"⟩ run3_find1).2
    (by decide)).1⟩

/-! ## Successful withdrawals -/

/-- Claim C6. When the user exists (`user` is the first user of that id), passes
`canWithdraw`, asks for at least the role's minimum and holds at least the amount,
the request succeeds and returns the old balance minus the amount; the user's wallet
has that balance and the old history followed by one debit record of the amount;
the user's withdrawal log is the old log followed by one entry; every other user's
wallet and log, the users and the referrals are unchanged. -/
theorem withdraw_success_post (s : State) (now : Timestamp) (userId : UserId) (amount : Int)
    (user : User) (w : Wallet)
    (hf : s.users.find? (fun x => decide (x.id = userId)) = some user)
    (hc : (canWithdraw s now userId user.type).2 = true)
    (hm : minAmount user.type ≤ amount)
    (hw : s.wallets userId = some w) (hb : amount ≤ w.balance) :
    (withdraw s now userId amount).2 = .success (w.balance - amount) ∧
    (withdraw s now userId amount).1.wallets userId =
      some ⟨w.balance - amount, w.transactions ++ [⟨.debit, amount, now⟩]⟩ ∧
    logEntries (withdraw s now userId amount).1 userId = logEntries s userId ++ [now] ∧
    (∀ v, v ≠ userId →
      (withdraw s now userId amount).1.wallets v = s.wallets v ∧
      (withdraw s now userId amount).1.withdrawals v = s.withdrawals v) ∧
    (withdraw s now userId amount).1.users = s.users ∧
    (withdraw s now userId amount).1.referrals = s.referrals := by
  rw [withdraw_success s now userId amount user hf hc (not_lt.mpr hm) w hw hb]
  refine ⟨rfl, setKey_same _ _ _, ?_, ?_, rfl, rfl⟩
  · simp [logEntries, setKey]
  · intro v hv
    exact ⟨setKey_other _ _ _ _ hv, setKey_other _ _ _ _ hv⟩

/-- Witness for `withdraw_success_post`: customer 1 withdraws the 120 of the reward. -/
theorem withdraw_success_post_witness :
    (withdraw run3 ⟨7, 2⟩ 1 120).2 = .success (120 - 120) ∧
    (withdraw run3 ⟨7, 2⟩ 1 120).1.wallets 1 =
      some ⟨120 - 120, [⟨.credit, 120, ⟨7, 1⟩⟩] ++ [⟨.debit, 120, ⟨7, 2⟩⟩]⟩ :=
  ⟨(withdraw_success_post run3 ⟨7, 2⟩ 1 120 ⟨1, .customer, "C"⟩ _ run3_find1 (by decide)
      (by decide) run3_wallet1 (by decide)).1,
   (withdraw_success_post run3 ⟨7, 2⟩ 1 120 ⟨1, .customer, "C"⟩ _ run3_find1 (by decide)
      (by decide) run3_wallet1 (by decide)).2.1⟩

/-! ## The customer minimum -/

/-- Claim C7, as stated, fails: customer 1 has already withdrawn on day 7; a request
for 50 on day 7 is below 120 but fails with `limitExceeded`, not `belowMinimum`. -/
theorem customer_below_minimum_limit_first :
    run4.users.find? (fun x => decide (x.id = 1)) = some ⟨1, .customer, "C"⟩ ∧
    (withdraw run4 ⟨7, 3⟩ 1 50).2 = .limitExceeded ∧
    (withdraw run4 ⟨7, 3⟩ 1 50).2 ≠ .belowMinimum := by
  decide

/-- Claim C7, amended. A withdraw request by a customer with amount below 120 fails
with `belowMinimum` when the customer has made no withdrawal that day, and with
`limitExceeded` when the customer has; a request for exactly 120 succeeds whenever
the customer's balance is at least 120 and the customer has made no withdrawal that
day. -/
theorem customer_minimum (s : State) (now : Timestamp) (userId : UserId) (user : User)
    (hf : s.users.find? (fun x => decide (x.id = userId)) = some user)
    (hr : user.type = .customer) :
    (∀ amount : Int, amount < 120 →
      (withdrawalsOn s userId now.day = 0 →
        (withdraw s now userId amount).2 = .belowMinimum) ∧
      (withdrawalsOn s userId now.day ≠ 0 →
        (withdraw s now userId amount).2 = .limitExceeded)) ∧
    (∀ w, s.wallets userId = some w → 120 ≤ w.balance →
      withdrawalsOn s userId now.day = 0 →
      (withdraw s now userId 120).2 = .success (w.balance - 120)) := by
  have hcw : (canWithdraw s now userId user.type).2 =
      decide (withdrawalsOn s userId now.day < 1) := by
    rw [canWithdraw_result, hr]
  have hmin : (minAmount user.type : Int) = 120 := by rw [hr]; rfl
  refine ⟨?_, ?_⟩
  · intro amount ha
    refine ⟨?_, ?_⟩
    · intro h0
      have hc : (canWithdraw s now userId user.type).2 = true := by
        rw [hcw]; simp [h0]
      rw [withdraw_belowMinimum s now userId amount user hf hc (by rw [hmin]; exact ha)]
    · intro h0
      have hc : (canWithdraw s now userId user.type).2 = false := by
        rw [hcw]; simp [h0]
      rw [withdraw_limitExceeded s now userId amount user hf hc]
  · intro w hw hb h0
    have hc : (canWithdraw s now userId user.type).2 = true := by
      rw [hcw]; simp [h0]
    rw [withdraw_success s now userId 120 user hf hc (by rw [hmin]; decide) w hw hb]

/-- Witness for `customer_minimum`: customer 1 holds 120 and has not withdrawn on
day 7; asking for 119 fails with `belowMinimum`, asking for 120 succeeds. -/
theorem customer_minimum_witness :
    (withdraw run3 ⟨7, 2⟩ 1 119).2 = .belowMinimum ∧
    (withdraw run3 ⟨7, 2⟩ 1 120).2 = .success (120 - 120) :=
  ⟨((customer_minimum run3 ⟨7, 2⟩ 1 ⟨1, .customer, "C"⟩ run3_find1 rfl).1 119
      (by decide)).1 (by decide),
   (customer_minimum run3 ⟨7, 2⟩ 1 ⟨1, .customer, "C"⟩ run3_find1 rfl).2 _ run3_wallet1
      (by decide) (by decide)⟩


/-! ## Vendor registration -/

theorem getWallet_credited_same (s : State) (now : Timestamp) (u : UserId) (a : Int) :
    getWallet (credited s now u a) u =
      ⟨(getWallet s u).balance + a, (getWallet s u).transactions ++ [⟨.credit, a, now⟩]⟩ := by
  simp [getWallet, credited, setKey]

theorem credited_wallets_same (s : State) (now : Timestamp) (u : UserId) (a : Int) :
    (credited s now u a).wallets u =
      some ⟨(getWallet s u).balance + a,
        (getWallet s u).transactions ++ [⟨.credit, a, now⟩]⟩ := by
  simp [getWallet, credited, setKey]

theorem credited_wallets_other (s : State) (now : Timestamp) (u v : UserId) (a : Int)
    (h : v ≠ u) : (credited s now u a).wallets v = s.wallets v := by
  simp [credited, setKey, h]

theorem getWallet_credited_other (s : State) (now : Timestamp) (u v : UserId) (a : Int)
    (h : v ≠ u) : getWallet (credited s now u a) v = getWallet s v := by
  simp [getWallet, credited_wallets_other s now u v a h]

theorem find_markRegistered (v : UserId) (ag : Option Bool) (rs : List Referral) (r : Referral)
    (hf : rs.find? (fun r => decide (r.vendorId = v)) = some r) :
    (markRegistered v ag rs).find? (fun r => decide (r.vendorId = v)) =
      some { r with status := .registered, agreement := ag } := by
  induction rs with
  | nil => simp at hf
  | cons x xs ih =>
    by_cases hx : x.vendorId = v
    · simp [List.find?, hx] at hf
      subst hf
      simp [markRegistered, hx, List.find?]
    · simp [List.find?, hx] at hf
      simp [markRegistered, hx, List.find?, ih hf]

/-- Wallets after a vendor registration whose referral names an ordinary referrer
other than the vendor: each of the two is credited 120 once. -/
theorem vendorRegister_wallets (s : State) (now : Timestamp) (v : UserId) (d : VendorDetails)
    (ag : Option Bool) (r : Referral) (c : UserId)
    (hf : s.referrals.find? (fun r => decide (r.vendorId = v)) = some r)
    (hc : r.customerId = .id c) (hne : c ≠ v) :
    getWallet (vendorRegister s now v d ag).1 c =
      ⟨(getWallet s c).balance + 120,
        (getWallet s c).transactions ++ [⟨.credit, 120, now⟩]⟩ ∧
    getWallet (vendorRegister s now v d ag).1 v =
      ⟨(getWallet s v).balance + 120, (getWallet s v).transactions ++ [⟨.credit, 120, now⟩]⟩ := by
  rw [vendorRegister_found s now v d ag r c hf hc]
  refine ⟨?_, ?_⟩
  · show getWallet (credited _ now v 120) c = _
    rw [getWallet_credited_other _ _ _ _ _ hne, getWallet_credited_same]
    rfl
  · show getWallet (credited _ now v 120) v = _
    rw [getWallet_credited_same, getWallet_credited_other _ _ _ _ _ (Ne.symm hne)]
    rfl

theorem vendorRegister_referrals (s : State) (now : Timestamp) (v : UserId) (d : VendorDetails)
    (ag : Option Bool) (r : Referral) (c : UserId)
    (hf : s.referrals.find? (fun r => decide (r.vendorId = v)) = some r)
    (hc : r.customerId = .id c) :
    (vendorRegister s now v d ag).1.referrals = markRegistered v ag s.referrals := by
  rw [vendorRegister_found s now v d ag r c hf hc]
  rfl

/-- Claim C8, as stated, fails: after the referral of vendor 2 by customer 1, one
completion of the vendor registration leaves both with balance 120, a second
completion leaves both with balance 240. -/
theorem vendor_register_twice_differs :
    (getWallet (vendorRegister run2 ⟨7, 1⟩ 2 ⟨none, none, "V"⟩ (some true)).1 1).balance = 120 ∧
    (getWallet (vendorRegister run2 ⟨7, 1⟩ 2 ⟨none, none, "V"⟩ (some true)).1 2).balance = 120 ∧
    (getWallet (vendorRegister (vendorRegister run2 ⟨7, 1⟩ 2 ⟨none, none, "V"⟩ (some true)).1
      ⟨7, 2⟩ 2 ⟨none, none, "V"⟩ (some true)).1 1).balance = 240 ∧
    (getWallet (vendorRegister (vendorRegister run2 ⟨7, 1⟩ 2 ⟨none, none, "V"⟩ (some true)).1
      ⟨7, 2⟩ 2 ⟨none, none, "V"⟩ (some true)).1 2).balance = 240 := by
  decide

/-- Claim C8, amended. For a referral with vendor id `V` whose referrer `C` is an
ordinary identifier (not the name of a property that every object inherits) other
than `V`, every completion of the vendor registration for `V` succeeds and credits
120 to both `C` and `V`: after one completion each wallet holds 120 more and one
more credit record than before, after a second completion each holds 240 more and
two more credit records. -/
theorem vendor_register_twice (s : State) (now1 now2 : Timestamp) (vendorId : UserId)
    (d1 d2 : VendorDetails) (ag1 ag2 : Option Bool) (r : Referral) (c : UserId)
    (hf : s.referrals.find? (fun r => decide (r.vendorId = vendorId)) = some r)
    (hc : r.customerId = .id c) (hne : c ≠ vendorId) :
    (vendorRegister s now1 vendorId d1 ag1).2 = .rewarded ∧
    (vendorRegister (vendorRegister s now1 vendorId d1 ag1).1 now2 vendorId d2 ag2).2
      = .rewarded ∧
    getWallet (vendorRegister s now1 vendorId d1 ag1).1 c =
      ⟨(getWallet s c).balance + 120,
        (getWallet s c).transactions ++ [⟨.credit, 120, now1⟩]⟩ ∧
    getWallet (vendorRegister s now1 vendorId d1 ag1).1 vendorId =
      ⟨(getWallet s vendorId).balance + 120,
        (getWallet s vendorId).transactions ++ [⟨.credit, 120, now1⟩]⟩ ∧
    getWallet (vendorRegister (vendorRegister s now1 vendorId d1 ag1).1 now2 vendorId d2 ag2).1
        c =
      ⟨(getWallet s c).balance + 240,
        (getWallet s c).transactions ++
          [⟨.credit, 120, now1⟩, ⟨.credit, 120, now2⟩]⟩ ∧
    getWallet (vendorRegister (vendorRegister s now1 vendorId d1 ag1).1 now2 vendorId d2 ag2).1
        vendorId =
      ⟨(getWallet s vendorId).balance + 240,
        (getWallet s vendorId).transactions ++
          [⟨.credit, 120, now1⟩, ⟨.credit, 120, now2⟩]⟩ := by
  have hf1 : (vendorRegister s now1 vendorId d1 ag1).1.referrals.find?
      (fun r => decide (r.vendorId = vendorId)) =
      some { r with status := .registered, agreement := ag1 } := by
    rw [vendorRegister_referrals s now1 vendorId d1 ag1 r c hf hc]
    exact find_markRegistered vendorId ag1 s.referrals r hf
  obtain ⟨hc1, hv1⟩ := vendorRegister_wallets s now1 vendorId d1 ag1 r c hf hc hne
  obtain ⟨hc2, hv2⟩ := vendorRegister_wallets _ now2 vendorId d2 ag2 _ c hf1 hc hne
  refine ⟨?_, ?_, hc1, hv1, ?_, ?_⟩
  · rw [vendorRegister_found s now1 vendorId d1 ag1 r c hf hc]
  · rw [vendorRegister_found _ now2 vendorId d2 ag2 _ c hf1 hc]
  · rw [hc2, hc1]
    simp
    omega
  · rw [hv2, hv1]
    simp
    omega

/-- Witness for `vendor_register_twice`: vendor 2 referred by customer 1. -/
theorem vendor_register_twice_witness :
    (vendorRegister (vendorRegister run2 ⟨7, 1⟩ 2 ⟨none, none, "V"⟩ (some true)).1 ⟨7, 2⟩ 2
      ⟨none, none, "V"⟩ (some true)).2 = .rewarded :=
  (vendor_register_twice run2 ⟨7, 1⟩ ⟨7, 2⟩ 2 ⟨none, none, "V"⟩ ⟨none, none, "V"⟩ (some true)
    (some true) ⟨2, .id 1, "V", "L", .initiated, ⟨7, 0⟩, none⟩ 1 (by decide) rfl
    (by decide)).2.1

/-- Claim C10. For a vendor id that has no referral record, vendor-register fails
with `notFound` and returns the store unchanged: users, referrals, wallets and
withdrawal logs are what they were. -/
theorem vendor_register_unknown (s : State) (now : Timestamp) (vendorId : UserId)
    (vendorDetails : VendorDetails) (agreementAccepted : Option Bool)
    (h : ∀ r ∈ s.referrals, r.vendorId ≠ vendorId) :
    vendorRegister s now vendorId vendorDetails agreementAccepted = (s, .notFound) := by
  apply vendorRegister_notFound
  simpa [List.find?_eq_none] using h

/-- Witness for `vendor_register_unknown`: vendor id 3 was never referred. -/
theorem vendor_register_unknown_witness :
    vendorRegister run3 ⟨7, 5⟩ 3 ⟨none, none, "W"⟩ (some true) = (run3, .notFound) :=
  vendor_register_unknown run3 ⟨7, 5⟩ 3 ⟨none, none, "W"⟩ (some true) (by decide)


/-! ## The referral scenario -/

theorem find_append_new {α : Type} (p : α → Bool) (l : List α) (x : α)
    (hl : ∀ y ∈ l, p y = false) (hx : p x = true) : (l ++ [x]).find? p = some x := by
  induction l with
  | nil => simp [List.find?, hx]
  | cons y ys ih =>
    have hy : p y = false := hl y (List.mem_cons_self _ _)
    simp only [List.cons_append, List.find?, hy]
    exact ih (fun z hz => hl z (List.mem_cons_of_mem _ hz))

theorem markRegistered_append_new (v : UserId) (ag : Option Bool) (l : List Referral)
    (r : Referral) (hl : ∀ y ∈ l, y.vendorId ≠ v) (hr : r.vendorId = v) :
    markRegistered v ag (l ++ [r]) = l ++ [{ r with status := .registered, agreement := ag }] := by
  induction l with
  | nil => simp [markRegistered, hr]
  | cons y ys ih =>
    have hy : y.vendorId ≠ v := hl y (List.mem_cons_self _ _)
    have h := ih (fun z hz => hl z (List.mem_cons_of_mem _ hz))
    simp only [List.cons_append, markRegistered, hy, if_false]
    exact congrArg (List.cons y) h

/-- The referral scenario for any `vendorDetails`: after registering customer `C`,
initiating a referral for `C` with the fresh vendor id `V` and completing the vendor
registration for `V` once, the registration succeeds, both wallets hold 120 with a
history of one credit of 120, the referral of `V` is registered with the agreement
flag of the request, and the user pushed is the one `vendorDetails` shapes. -/
theorem referral_scenario (s : State) (c v : UserId) (profile vendorName vendorLocation : String)
    (vendorDetails : VendorDetails) (agreementAccepted : Option Bool) (now1 now2 : Timestamp)
    (hv : Fresh (register s c .customer profile) v) :
    (register s c .customer profile).wallets c = some ⟨0, []⟩ ∧
    (vendorRegister (initiateReferral (register s c .customer profile) now1 v (.id c) vendorName
        vendorLocation) now2 v vendorDetails agreementAccepted).2 = .rewarded ∧
    (vendorRegister (initiateReferral (register s c .customer profile) now1 v (.id c) vendorName
        vendorLocation) now2 v vendorDetails agreementAccepted).1.wallets c =
      some ⟨120, [⟨.credit, 120, now2⟩]⟩ ∧
    (vendorRegister (initiateReferral (register s c .customer profile) now1 v (.id c) vendorName
        vendorLocation) now2 v vendorDetails agreementAccepted).1.wallets v =
      some ⟨120, [⟨.credit, 120, now2⟩]⟩ ∧
    (vendorRegister (initiateReferral (register s c .customer profile) now1 v (.id c) vendorName
        vendorLocation) now2 v vendorDetails agreementAccepted).1.referrals.find?
        (fun r => decide (r.vendorId = v)) =
      some ⟨v, .id c, vendorName, vendorLocation, .registered, now1, agreementAccepted⟩ ∧
    (vendorRegister (initiateReferral (register s c .customer profile) now1 v (.id c) vendorName
        vendorLocation) now2 v vendorDetails agreementAccepted).1.users =
      (register s c .customer profile).users ++
        [⟨vendorDetails.id.getD v, vendorDetails.type.getD .vendor, vendorDetails.profile⟩] := by
  obtain ⟨_, hr, hw, _⟩ := hv
  have hc0 : (register s c .customer profile).wallets c = some ⟨0, []⟩ := by
    simp [register, setKey, WalletOf.zero]
  have hcv : c ≠ v := by
    intro h
    rw [← h, hc0] at hw
    cases hw
  have hfind : (initiateReferral (register s c .customer profile) now1 v (.id c) vendorName
      vendorLocation).referrals.find? (fun r => decide (r.vendorId = v)) =
      some ⟨v, .id c, vendorName, vendorLocation, .initiated, now1, none⟩ := by
    apply find_append_new
    · intro y hy
      simpa using (hr y hy).1
    · simp
  rw [vendorRegister_found _ now2 v vendorDetails agreementAccepted _ c hfind rfl]
  refine ⟨hc0, rfl, ?_, ?_, ?_, rfl⟩
  · show (credited _ now2 v 120).wallets c = _
    rw [credited_wallets_other _ _ _ _ _ hcv]
    show (credited _ now2 c 120).wallets c = _
    rw [credited_wallets_same]
    simp [getWallet, enrolled, initiateReferral, hc0]
  · show (credited _ now2 v 120).wallets v = _
    rw [credited_wallets_same, getWallet_credited_other _ _ _ _ _ (Ne.symm hcv)]
    simp [getWallet, enrolled, initiateReferral, hw, WalletOf.zero]
  · show (markRegistered v agreementAccepted
      ((register s c .customer profile).referrals ++ [_])).find? _ = _
    rw [markRegistered_append_new v agreementAccepted _ _ (fun y hy => (hr y hy).1) rfl]
    apply find_append_new
    · intro y hy
      simpa using (hr y hy).1
    · simp

/-- Claim C9 on the code: customer 1 registers and refers the vendor that receives
id 2. Completed with `vendorDetails = { type: 'customer' }`, the registration is
confirmed and both wallets hold 120 with one credit, but the user stored for id 2 has
role customer; completed with `vendorDetails = { id: 9 }`, no user has id 2. -/
theorem referred_vendor_role_overridden :
    (vendorRegister run2 ⟨7, 1⟩ 2 ⟨none, some .customer, "V"⟩ (some true)).2 = .rewarded ∧
    (vendorRegister run2 ⟨7, 1⟩ 2 ⟨none, some .customer, "V"⟩ (some true)).1.wallets 1 =
      some ⟨120, [⟨.credit, 120, ⟨7, 1⟩⟩]⟩ ∧
    (vendorRegister run2 ⟨7, 1⟩ 2 ⟨none, some .customer, "V"⟩ (some true)).1.wallets 2 =
      some ⟨120, [⟨.credit, 120, ⟨7, 1⟩⟩]⟩ ∧
    (vendorRegister run2 ⟨7, 1⟩ 2 ⟨none, some .customer, "V"⟩ (some true)).1.users.find?
      (fun u => decide (u.id = 2)) = some ⟨2, .customer, "V"⟩ ∧
    (vendorRegister run2 ⟨7, 1⟩ 2 ⟨some 9, none, "V"⟩ (some true)).1.users.find?
      (fun u => decide (u.id = 2)) = none := by
  decide


/-! ## The daily cap -/

theorem canWithdraw_cap (s : State) (now : Timestamp) (u : UserId) (r : Role) :
    (canWithdraw s now u r).2 = decide (withdrawalsOn s u now.day < cap r) := by
  rw [canWithdraw_result]
  cases r <;> simp [cap]

theorem find_some_mem (s : State) (u : UserId) (user : User)
    (hf : s.users.find? (fun x => decide (x.id = u)) = some user) :
    user ∈ s.users ∧ user.id = u := by
  refine ⟨List.mem_of_find?_eq_some hf, ?_⟩
  have := List.find?_some hf
  simpa using this

theorem logEntries_congr (s t : State) (h : t.withdrawals = s.withdrawals) (v : UserId) :
    logEntries t v = logEntries s v := by
  unfold logEntries
  rw [h]

theorem eodUser_users (now : Timestamp) (s : State) (user : User) :
    (eodUser now s user).users = s.users := by
  unfold eodUser
  split
  · rfl
  · simp only
    split_ifs
    · rw [logWithdraw_users, withdrawUser_users, canWithdraw_users]
    · rw [canWithdraw_users]
    · rfl

theorem eodUser_referrals (now : Timestamp) (s : State) (user : User) :
    (eodUser now s user).referrals = s.referrals := by
  unfold eodUser
  split
  · rfl
  · simp only
    split_ifs
    · rw [logWithdraw_referrals, withdrawUser_referrals, canWithdraw_referrals]
    · rw [canWithdraw_referrals]
    · rfl

/-! ## The sweep, user by user -/

theorem eodUser_skip_balance (now : Timestamp) (s : State) (user : User)
    (h : ¬ 0 < (getWallet s user.id).balance) : eodUser now s user = s := by
  unfold eodUser
  cases hw : s.wallets user.id with
  | none => rfl
  | some w =>
    have : ¬ 0 < w.balance := by simpa [getWallet, hw] using h
    simp [this]

theorem eodUser_skip_limit (now : Timestamp) (s : State) (user : User)
    (hb : 0 < (getWallet s user.id).balance)
    (hc : (canWithdraw s now user.id user.type).2 = false) :
    eodUser now s user = (canWithdraw s now user.id user.type).1 := by
  unfold eodUser
  cases hw : s.wallets user.id with
  | none => simp [getWallet, hw, WalletOf.zero] at hb
  | some w =>
    have : 0 < w.balance := by simpa [getWallet, hw] using hb
    simp [this, hc]

/-- The store after the sweep step of a user with positive balance who passes
`canWithdraw`. -/
theorem eodUser_swept (now : Timestamp) (s : State) (user : User) (w : Wallet)
    (hw : s.wallets user.id = some w) (hb : 0 < w.balance)
    (hc : (canWithdraw s now user.id user.type).2 = true) :
    eodUser now s user =
      StateOf.mk s.users s.referrals
        (setKey s.wallets user.id
          ⟨w.balance - w.balance, w.transactions ++ [TransactionOf.mk .debit w.balance now]⟩)
        (setKey s.withdrawals user.id (logEntries s user.id ++ [now])) := by
  have hw1 : (canWithdraw s now user.id user.type).1.wallets user.id = some w := by
    rw [canWithdraw_wallets]; exact hw
  have hl := canWithdraw_logEntries s now user.id user.type user.id
  have hs := canWithdraw_state s now user.id user.type
  unfold eodUser
  rw [hw]
  simp only [hb, hc, if_true]
  have hg : (getWallet (canWithdraw s now user.id user.type).1 user.id).balance = w.balance := by
    simp [getWallet, hw1]
  rw [hg, withdrawUser_true _ _ _ _ w hw1 (le_refl _)]
  simp only [logWithdraw, canWithdraw_users, canWithdraw_referrals, canWithdraw_wallets]
  unfold logEntries at hl
  have hk : setKey (canWithdraw s now user.id user.type).1.withdrawals user.id
      (((canWithdraw s now user.id user.type).1.withdrawals user.id).getD [] ++ [now]) =
      setKey s.withdrawals user.id (logEntries s user.id ++ [now]) := by
    funext i
    by_cases hi : i = user.id
    · subst hi; simp [setKey, hl, logEntries]
    · rw [setKey_other _ _ _ _ hi, setKey_other _ _ _ _ hi, hs]
      cases hx : s.withdrawals user.id <;> simp [setKey, hi]
  simp [hk]

/-- A user who is not swept: the step leaves the store as it was, up to the
creation of an empty log for that user. -/
theorem eodUser_skipped (now : Timestamp) (s : State) (user : User)
    (h : ¬ (0 < (getWallet s user.id).balance ∧
      (canWithdraw s now user.id user.type).2 = true)) :
    SameButEmptyLog s (eodUser now s user) user.id := by
  by_cases hb : 0 < (getWallet s user.id).balance
  · have hc : (canWithdraw s now user.id user.type).2 = false := by
      cases hc : (canWithdraw s now user.id user.type).2 with
      | false => rfl
      | true => exact absurd ⟨hb, hc⟩ h
    rw [eodUser_skip_limit now s user hb hc]
    exact canWithdraw_sameButEmptyLog s now user.id user.type
  · rw [eodUser_skip_balance now s user hb]
    exact sameButEmptyLog_refl s user.id

/-- The sweep step of one user touches the wallet and the log of no other id. -/
theorem eodUser_other (now : Timestamp) (s : State) (user : User) (v : UserId)
    (hv : v ≠ user.id) :
    (eodUser now s user).wallets v = s.wallets v ∧
    (eodUser now s user).withdrawals v = s.withdrawals v := by
  by_cases h : 0 < (getWallet s user.id).balance ∧
      (canWithdraw s now user.id user.type).2 = true
  · obtain ⟨hb, hc⟩ := h
    cases hw : s.wallets user.id with
    | none => simp [getWallet, hw, WalletOf.zero] at hb
    | some w =>
      have hb1 : 0 < w.balance := by simpa [getWallet, hw] using hb
      rw [eodUser_swept now s user w hw hb1 hc]
      exact ⟨setKey_other _ _ _ _ hv, setKey_other _ _ _ _ hv⟩
  · obtain ⟨_, _, h3, _, h5, _⟩ := eodUser_skipped now s user h
    exact ⟨by rw [h3], h5 v hv⟩

theorem canWithdraw_snd_congr (s t : State) (now : Timestamp) (u : UserId) (r : Role)
    (h : logEntries s u = logEntries t u) :
    (canWithdraw s now u r).2 = (canWithdraw t now u r).2 := by
  rw [canWithdraw_cap, canWithdraw_cap]
  unfold withdrawalsOn
  rw [h]

theorem getWallet_congr (s t : State) (u : UserId) (h : s.wallets u = t.wallets u) :
    getWallet s u = getWallet t u := by
  unfold getWallet
  rw [h]

theorem eodFold_users (now : Timestamp) (l : List User) (s : State) :
    (l.foldl (eodUser now) s).users = s.users := by
  induction l generalizing s with
  | nil => rfl
  | cons x xs ih => simp only [List.foldl]; rw [ih, eodUser_users]

theorem eodFold_referrals (now : Timestamp) (l : List User) (s : State) :
    (l.foldl (eodUser now) s).referrals = s.referrals := by
  induction l generalizing s with
  | nil => rfl
  | cons x xs ih => simp only [List.foldl]; rw [ih, eodUser_referrals]

/-- A sweep step that does not sweep the id `uid` keeps its wallet and the entries
of its log; the log itself is the same when it existed or the balance is not
positive. -/
theorem eodUser_keep (now : Timestamp) (s : State) (x : User) (uid : UserId)
    (h : x.id = uid → ¬ (0 < (getWallet s uid).balance ∧
      (canWithdraw s now uid x.type).2 = true)) :
    (eodUser now s x).wallets uid = s.wallets uid ∧
    logEntries (eodUser now s x) uid = logEntries s uid ∧
    ((s.withdrawals uid ≠ none ∨ ¬ 0 < (getWallet s uid).balance) →
      (eodUser now s x).withdrawals uid = s.withdrawals uid) := by
  by_cases hx : x.id = uid
  · subst hx
    have hs := eodUser_skipped now s x (h rfl)
    obtain ⟨_, _, h3, h4, _, h6⟩ := hs
    refine ⟨by rw [h3], h4 x.id, ?_⟩
    rintro (hc | hc)
    · rcases h6 with h6 | ⟨h6, _⟩
      · exact h6
      · exact absurd h6 hc
    · rw [eodUser_skip_balance now s x hc]
  · have hv : uid ≠ x.id := fun e => hx e.symm
    obtain ⟨h1, h2⟩ := eodUser_other now s x uid hv
    refine ⟨h1, ?_, fun _ => h2⟩
    unfold logEntries
    rw [h2]

/-- An id for which no user of the list is swept keeps its wallet and its log
entries through the sweep. -/
theorem eodFold_unswept (now : Timestamp) (l : List User) (s : State) (uid : UserId)
    (h : ∀ u ∈ l, u.id = uid → ¬ (0 < (getWallet s uid).balance ∧
      (canWithdraw s now uid u.type).2 = true)) :
    (l.foldl (eodUser now) s).wallets uid = s.wallets uid ∧
    logEntries (l.foldl (eodUser now) s) uid = logEntries s uid ∧
    ((s.withdrawals uid ≠ none ∨ ¬ 0 < (getWallet s uid).balance) →
      (l.foldl (eodUser now) s).withdrawals uid = s.withdrawals uid) := by
  induction l generalizing s with
  | nil => exact ⟨rfl, rfl, fun _ => rfl⟩
  | cons x xs ih =>
    obtain ⟨k1, k2, k3⟩ := eodUser_keep now s x uid (h x (List.mem_cons_self _ _))
    have hg : getWallet (eodUser now s x) uid = getWallet s uid := getWallet_congr _ _ _ k1
    have h' : ∀ u ∈ xs, u.id = uid → ¬ (0 < (getWallet (eodUser now s x) uid).balance ∧
        (canWithdraw (eodUser now s x) now uid u.type).2 = true) := by
      intro u hu e
      rw [hg, canWithdraw_snd_congr _ s now uid u.type k2]
      exact h u (List.mem_cons_of_mem _ hu) e
    obtain ⟨j1, j2, j3⟩ := ih (eodUser now s x) h'
    simp only [List.foldl]
    refine ⟨by rw [j1, k1], by rw [j2, k2], ?_⟩
    intro hc
    have hk := k3 hc
    rw [j3 (by rw [hk, hg]; exact hc), hk]

/-- An id with positive balance for which some user of the list passes
`canWithdraw` is swept exactly once: the wallet ends at 0 with one more debit record,
of the old balance, and the log gains one entry. -/
theorem eodFold_swept (now : Timestamp) (l : List User) (s : State) (uid : UserId)
    (w : Wallet) (hw : s.wallets uid = some w) (hb : 0 < w.balance)
    (he : ∃ u ∈ l, u.id = uid ∧ (canWithdraw s now uid u.type).2 = true) :
    (l.foldl (eodUser now) s).wallets uid =
      some ⟨0, w.transactions ++ [⟨.debit, w.balance, now⟩]⟩ ∧
    logEntries (l.foldl (eodUser now) s) uid = logEntries s uid ++ [now] := by
  induction l generalizing s with
  | nil =>
    obtain ⟨u, hu, _⟩ := he
    cases hu
  | cons x xs ih =>
    simp only [List.foldl]
    by_cases hx : x.id = uid ∧ (canWithdraw s now uid x.type).2 = true
    · obtain ⟨hx1, hx2⟩ := hx
      subst hx1
      have hsw := eodUser_swept now s x w hw hb hx2
      have hw' : (eodUser now s x).wallets x.id =
          some ⟨0, w.transactions ++ [⟨.debit, w.balance, now⟩]⟩ := by
        rw [hsw]; simp [setKey]
      have hl' : logEntries (eodUser now s x) x.id = logEntries s x.id ++ [now] := by
        rw [hsw]; simp [logEntries, setKey]
      have hno : ∀ u ∈ xs, u.id = x.id → ¬ (0 < (getWallet (eodUser now s x) x.id).balance ∧
          (canWithdraw (eodUser now s x) now x.id u.type).2 = true) := by
        intro u _ _ hcon
        have : (getWallet (eodUser now s x) x.id).balance = 0 := by
          simp [getWallet, hw']
        rw [this] at hcon
        exact absurd hcon.1 (lt_irrefl _)
      obtain ⟨j1, j2, _⟩ := eodFold_unswept now xs (eodUser now s x) x.id hno
      exact ⟨by rw [j1, hw'], by rw [j2, hl']⟩
    · have hkeep : x.id = uid → ¬ (0 < (getWallet s uid).balance ∧
          (canWithdraw s now uid x.type).2 = true) := by
        intro e hcon
        exact hx ⟨e, hcon.2⟩
      obtain ⟨k1, k2, _⟩ := eodUser_keep now s x uid hkeep
      have he' : ∃ u ∈ xs, u.id = uid ∧
          (canWithdraw (eodUser now s x) now uid u.type).2 = true := by
        obtain ⟨u, hu, e, hc⟩ := he
        rcases List.mem_cons.mp hu with hux | hux
        · subst hux
          exact absurd ⟨e, hc⟩ hx
        · exact ⟨u, hux, e, by rw [canWithdraw_snd_congr _ s now uid u.type k2]; exact hc⟩
      obtain ⟨j1, j2⟩ := ih (eodUser now s x) (by rw [k1]; exact hw) he'
      exact ⟨j1, by rw [j2, k2]⟩

/-! ## The sweep and the withdraw operation -/

theorem sameLedger_of_sameButEmptyLog (s post : State) (u : UserId)
    (h : SameButEmptyLog s post u) : SameLedger post s :=
  ⟨h.1, h.2.1, h.2.2.1, h.2.2.2.1⟩

theorem SameLedger_trans (a b c : State) (h1 : SameLedger a b) (h2 : SameLedger b c) :
    SameLedger a c :=
  ⟨h1.1.trans h2.1, h1.2.1.trans h2.2.1, h1.2.2.1.trans h2.2.2.1,
    fun v => (h1.2.2.2 v).trans (h2.2.2.2 v)⟩

theorem find_of_mem (l : List User) (x : User) (hx : x ∈ l) :
    ∃ y, l.find? (fun u => decide (u.id = x.id)) = some y := by
  cases hf : l.find? (fun u => decide (u.id = x.id)) with
  | none =>
    rw [List.find?_eq_none] at hf
    exact absurd (by simp) (hf x hx)
  | some y => exact ⟨y, rfl⟩

/-- One sweep step agrees with the withdraw operation on the user's balance when
the user's role is the role of the first user of that id and a positive balance is
not below the role's minimum. -/
theorem eodUser_sameLedger (now : Timestamp) (s t : State) (x : User)
    (hst : SameLedger s t) (hx : x ∈ s.users)
    (hroles : ∀ u ∈ s.users, ∀ v ∈ s.users, u.id = v.id → u.type = v.type)
    (hmin : 0 < (getWallet s x.id).balance → minAmount x.type ≤ (getWallet s x.id).balance) :
    SameLedger (eodUser now s x) (sweepUserViaWithdraw now t x) := by
  obtain ⟨hu, hr, hw, hl⟩ := hst
  have hg : getWallet t x.id = getWallet s x.id := getWallet_congr _ _ _ (by rw [hw])
  have hcw : ∀ r, (canWithdraw t now x.id r).2 = (canWithdraw s now x.id r).2 :=
    fun r => canWithdraw_snd_congr t s now x.id r (hl x.id).symm
  unfold sweepUserViaWithdraw
  rw [hg, hcw]
  by_cases he : 0 < (getWallet s x.id).balance ∧ (canWithdraw s now x.id x.type).2 = true
  · obtain ⟨hb, hc⟩ := he
    simp only [hb, hc, and_self, if_true]
    cases hws : s.wallets x.id with
    | none => simp [getWallet, hws, WalletOf.zero] at hb
    | some w =>
      have hgw : getWallet s x.id = w := by simp [getWallet, hws]
      rw [hgw] at hb hmin ⊢
      obtain ⟨y, hy⟩ := find_of_mem t.users x (by rw [← hu]; exact hx)
      obtain ⟨hym, hyid⟩ := find_some_mem t x.id y hy
      have hyt : y.type = x.type := hroles y (by rw [hu]; exact hym) x hx hyid
      rw [eodUser_swept now s x w hws hb hc,
        withdraw_success t now x.id w.balance y hy (by rw [hyt, hcw]; exact hc)
          (by rw [hyt]; exact not_lt.mpr (hmin hb)) w (by rw [← hw]; exact hws) (le_refl _)]
      refine ⟨hu, hr, by simp only [hw], ?_⟩
      intro v
      by_cases hv : v = x.id
      · subst hv; simp [logEntries, setKey, hl x.id] 
        exact hl x.id
      · have := hl v
        simpa [logEntries, setKey, hv] using this
  · simp only [he, if_false]
    exact SameLedger_trans _ s t
      (sameLedger_of_sameButEmptyLog s _ x.id (eodUser_skipped now s x he)) ⟨hu, hr, hw, hl⟩

/-- After a sweep step every balance is what it was or is 0. -/
theorem eodUser_balance (now : Timestamp) (s : State) (x : User) (uid : UserId) :
    getWallet (eodUser now s x) uid = getWallet s uid ∨
    (getWallet (eodUser now s x) uid).balance = 0 := by
  by_cases h : x.id = uid ∧ 0 < (getWallet s uid).balance ∧
      (canWithdraw s now uid x.type).2 = true
  · obtain ⟨e, hb, hc⟩ := h
    subst e
    cases hws : s.wallets x.id with
    | none => simp [getWallet, hws, WalletOf.zero] at hb
    | some w =>
      have hb1 : 0 < w.balance := by simpa [getWallet, hws] using hb
      right
      rw [eodUser_swept now s x w hws hb1 hc]
      simp [getWallet, setKey]
  · left
    apply getWallet_congr
    exact (eodUser_keep now s x uid (fun e hcon => h ⟨e, hcon⟩)).1

theorem eodFold_sameLedger (now : Timestamp) (l : List User) (s t : State)
    (hst : SameLedger s t) (hsub : ∀ u ∈ l, u ∈ s.users)
    (hroles : ∀ u ∈ s.users, ∀ v ∈ s.users, u.id = v.id → u.type = v.type)
    (hmin : ∀ u ∈ l, 0 < (getWallet s u.id).balance →
      minAmount u.type ≤ (getWallet s u.id).balance) :
    SameLedger (l.foldl (eodUser now) s) (l.foldl (sweepUserViaWithdraw now) t) := by
  induction l generalizing s t with
  | nil => exact hst
  | cons x xs ih =>
    simp only [List.foldl]
    apply ih
    · exact eodUser_sameLedger now s t x hst (hsub x (List.mem_cons_self _ _)) hroles
        (hmin x (List.mem_cons_self _ _))
    · intro u hu
      rw [eodUser_users]
      exact hsub u (List.mem_cons_of_mem _ hu)
    · rw [eodUser_users]
      exact hroles
    · intro u hu hb
      rcases eodUser_balance now s x u.id with h | h
      · rw [h] at hb ⊢
        exact hmin u (List.mem_cons_of_mem _ hu) hb
      · rw [h] at hb
        exact absurd hb (lt_irrefl _)

theorem fresh_run3 : Fresh run3 3 := by
  unfold Fresh
  decide

theorem reachable_run7 : Reachable run7 :=
  Reachable.withdraw ⟨7, 4⟩ 1 130
    (Reachable.vendorRegister ⟨7, 3⟩ 3 ⟨none, none, "W"⟩ (some true)
      (Reachable.initiateReferral ⟨7, 2⟩ 3 (.id 1) "W" "L" reachable_run3 fresh_run3))

/-- Claim C11, as stated, fails: customer 1 holds 110 and has not withdrawn on day 8.
The sweep of day 8 debits the 110 and leaves balance 0; the withdraw operation with
amount 110 fails with `belowMinimum`, so a sweep through it leaves the 110. -/
theorem sweep_bypasses_minimum :
    (getWallet run7 1).balance = 110 ∧
    (withdraw run7 ⟨8, 0⟩ 1 110).2 = .belowMinimum ∧
    (getWallet (eodAutoWithdraw run7 ⟨8, 0⟩) 1).balance = 0 ∧
    (getWallet (sweepViaWithdraw run7 ⟨8, 0⟩) 1).balance = 110 := by
  decide

/-- Claim C11, amended. When every id has a single role and no user holds a
positive balance below the minimum of the role, the store after the sweep agrees, in
users, referrals, wallets and the entries of every withdrawal log, with the store
obtained by invoking the withdraw operation, with amount = current balance, once for
each user in registry order whose balance is positive and who passes `canWithdraw`,
ignoring per-user failures. (The sweep itself applies no minimum: a customer holding
less than 120 is swept all the same.) -/
theorem sweep_via_withdraw (s : State) (now : Timestamp)
    (hroles : ∀ u ∈ s.users, ∀ v ∈ s.users, u.id = v.id → u.type = v.type)
    (hmin : ∀ u ∈ s.users, 0 < (getWallet s u.id).balance →
      minAmount u.type ≤ (getWallet s u.id).balance) :
    SameLedger (eodAutoWithdraw s now) (sweepViaWithdraw s now) :=
  eodFold_sameLedger now s.users s s ⟨rfl, rfl, rfl, fun _ => rfl⟩ (fun _ h => h) hroles hmin

/-- Witness for `sweep_via_withdraw`: the store in which customer 1 and vendor 2 hold
120 each. -/
theorem sweep_via_withdraw_witness :
    SameLedger (eodAutoWithdraw run3 ⟨8, 0⟩) (sweepViaWithdraw run3 ⟨8, 0⟩) :=
  sweep_via_withdraw run3 ⟨8, 0⟩ (by decide) (by decide)

/-! ## One id under two roles -/

theorem fresh_run2 : Fresh run2 3 := by
  unfold Fresh
  decide

theorem reachable_dup6 : Reachable dup6 :=
  Reachable.withdraw ⟨7, 4⟩ 1 120
    (Reachable.vendorRegister ⟨7, 3⟩ 3 ⟨none, none, "W"⟩ (some true)
      (Reachable.vendorRegister ⟨7, 2⟩ 2 ⟨some 1, none, "V"⟩ (some true)
        (Reachable.initiateReferral ⟨7, 1⟩ 3 (.id 1) "W" "L" reachable_run2 fresh_run2)))

/-- Claim C3 on the code: customer 1 refers vendors 2 and 3; vendor 2 completes the
registration with `vendorDetails = { id: 1 }`, so a user of id 1 and role vendor is
stored next to the customer; customer 1 withdraws 120 on day 7, and the sweep of
day 7 debits the remaining 120 through the vendor entry. The store is reachable, the
user found for id 1 is a customer, and the log of id 1 holds two entries dated
day 7. -/
theorem customer_logged_twice_in_a_day :
    Reachable dup7 ∧
    dup7.users.find? (fun x => decide (x.id = 1)) = some ⟨1, .customer, "C"⟩ ∧
    logEntries dup7 1 = [⟨7, 4⟩, ⟨7, 5⟩] ∧
    withdrawalsOn dup7 1 7 = 2 :=
  ⟨Reachable.eodAutoWithdraw ⟨7, 5⟩ reachable_dup6, by decide, by decide, by decide⟩

/-- Claim C12, as stated, fails: in a store the requests reach, customer 1 has
reached the daily cap (one entry dated day 7, `canWithdraw` returns false) and holds
120, and the registry also holds a user of id 1 and role vendor; the sweep of day 7
debits the 120 and adds a log entry. -/
theorem capped_customer_swept :
    Reachable dup6 ∧
    (⟨1, .customer, "C"⟩ : User) ∈ dup6.users ∧
    withdrawalsOn dup6 1 7 = 1 ∧
    (canWithdraw dup6 ⟨7, 5⟩ 1 .customer).2 = false ∧
    dup6.wallets 1 = some ⟨120, [⟨.credit, 120, ⟨7, 2⟩⟩, ⟨.credit, 120, ⟨7, 3⟩⟩,
      ⟨.debit, 120, ⟨7, 4⟩⟩]⟩ ∧
    (eodAutoWithdraw dup6 ⟨7, 5⟩).wallets 1 = some ⟨0, [⟨.credit, 120, ⟨7, 2⟩⟩,
      ⟨.credit, 120, ⟨7, 3⟩⟩, ⟨.debit, 120, ⟨7, 4⟩⟩, ⟨.debit, 120, ⟨7, 5⟩⟩]⟩ ∧
    (eodAutoWithdraw dup6 ⟨7, 5⟩).withdrawals 1 = some [⟨7, 4⟩, ⟨7, 5⟩] :=
  ⟨reachable_dup6, by decide, by decide, by decide, by decide, by decide, by decide⟩

/-! ## What the sweep does to each user -/

theorem withdrawals_ne_none_of_count (s : State) (u : UserId) (d : Nat)
    (h : 1 ≤ withdrawalsOn s u d) : s.withdrawals u ≠ none := by
  intro hn
  simp [withdrawalsOn, logEntries, hn] at h

/-- Claim C12, amended. After the sweep, every user whose balance `b` was positive
and who passed `canWithdraw` has balance 0, the old history followed by exactly one
debit record of amount `b`, and the old withdrawal log followed by exactly one entry,
whatever users come before in the registry. Every user who was ineligible because
the balance was zero (or the wallet absent) or because the daily cap was reached
(a customer with 1 entry, a vendor with 3 entries that day), and all of whose
same-id registry entries carry the user's role, has wallet and withdrawal log
unchanged. -/
theorem sweep_post (s : State) (now : Timestamp) (u : User) (hu : u ∈ s.users) :
    (∀ w, s.wallets u.id = some w → 0 < w.balance →
      (canWithdraw s now u.id u.type).2 = true →
      (eodAutoWithdraw s now).wallets u.id =
        some ⟨0, w.transactions ++ [⟨.debit, w.balance, now⟩]⟩ ∧
      logEntries (eodAutoWithdraw s now) u.id = logEntries s u.id ++ [now]) ∧
    ((∀ v ∈ s.users, v.id = u.id → v.type = u.type) →
      ((getWallet s u.id).balance ≤ 0 ∨
       (u.type = .customer ∧ 1 ≤ withdrawalsOn s u.id now.day) ∨
       (u.type = .vendor ∧ 3 ≤ withdrawalsOn s u.id now.day)) →
      (eodAutoWithdraw s now).wallets u.id = s.wallets u.id ∧
      (eodAutoWithdraw s now).withdrawals u.id = s.withdrawals u.id) := by
  refine ⟨?_, ?_⟩
  · intro w hw hb hc
    exact eodFold_swept now s.users s u.id w hw hb ⟨u, hu, rfl, hc⟩
  · intro hroles hin
    have hno : ∀ v ∈ s.users, v.id = u.id → ¬ (0 < (getWallet s u.id).balance ∧
        (canWithdraw s now u.id v.type).2 = true) := by
      intro v hv e hcon
      rw [hroles v hv e, canWithdraw_cap] at hcon
      obtain ⟨hb, hc⟩ := hcon
      have hc' : withdrawalsOn s u.id now.day < cap u.type := by simpa using hc
      rcases hin with h | ⟨ht, h⟩ | ⟨ht, h⟩
      · omega
      · rw [ht] at hc'; simp [cap] at hc'; omega
      · rw [ht] at hc'; simp [cap] at hc'; omega
    obtain ⟨j1, _, j3⟩ := eodFold_unswept now s.users s u.id hno
    refine ⟨j1, j3 ?_⟩
    rcases hin with h | ⟨_, h⟩ | ⟨_, h⟩
    · exact Or.inr (not_lt.mpr h)
    · exact Or.inl (withdrawals_ne_none_of_count s u.id now.day h)
    · exact Or.inl (withdrawals_ne_none_of_count s u.id now.day (by omega))

/-- Witness for `sweep_post`: on day 8 vendor 2, holding 120, is swept; on day 7
customer 1, who has withdrawn that day and holds 0, is left as is. -/
theorem sweep_post_witness :
    (eodAutoWithdraw run3 ⟨8, 0⟩).wallets 2 =
      some ⟨0, [⟨.credit, 120, ⟨7, 1⟩⟩] ++ [⟨.debit, 120, ⟨8, 0⟩⟩]⟩ ∧
    (eodAutoWithdraw run4 ⟨7, 9⟩).wallets 1 = run4.wallets 1 :=
  ⟨((sweep_post run3 ⟨8, 0⟩ ⟨2, .vendor, "V"⟩ (by decide)).1
      ⟨120, [⟨.credit, 120, ⟨7, 1⟩⟩]⟩ (by decide) (by decide) (by decide)).1,
   ((sweep_post run4 ⟨7, 9⟩ ⟨1, .customer, "C"⟩ (by decide)).2 (by decide)
      (Or.inr (Or.inl ⟨rfl, by decide⟩))).1⟩

/-! ## Users of another role -/

theorem canWithdraw_other (s : State) (now : Timestamp) (u : UserId) (r : Role)
    (h1 : r ≠ .customer) (h2 : r ≠ .vendor) : (canWithdraw s now u r).2 = false := by
  rw [canWithdraw_result]
  cases r with
  | customer => exact absurd rfl h1
  | vendor => exact absurd rfl h2
  | other l => rfl

/-- Claim C19, as stated, fails: user 5 has role `admin`, holds 120 and has no
withdrawal log; the sweep leaves the wallet as it is but creates an empty withdrawal
log for user 5. -/
theorem sweep_creates_log_for_other_role :
    adm3.users.find? (fun x => decide (x.id = 5)) = some ⟨5, .other "admin", "A"⟩ ∧
    adm3.withdrawals 5 = none ∧
    (eodAutoWithdraw adm3 ⟨7, 2⟩).withdrawals 5 = some [] := by
  decide

/-- Claim C19, amended. For a user id all of whose registry entries have a role that
is neither customer nor vendor: every withdraw request fails with `limitExceeded`, whatever the
amount and the balance, so it never fails with `belowMinimum`; and the sweep leaves
the wallet of the id and the entries of its withdrawal log unchanged (an absent log
may be created empty). -/
theorem other_role_never_debited (s : State) (userId : UserId)
    (hex : ∃ u ∈ s.users, u.id = userId)
    (hother : ∀ v ∈ s.users, v.id = userId → v.type ≠ .customer ∧ v.type ≠ .vendor) :
    (∀ (now : Timestamp) (amount : Int),
      (withdraw s now userId amount).2 = .limitExceeded ∧
      (withdraw s now userId amount).2 ≠ .belowMinimum) ∧
    (∀ now : Timestamp,
      (eodAutoWithdraw s now).wallets userId = s.wallets userId ∧
      logEntries (eodAutoWithdraw s now) userId = logEntries s userId) := by
  refine ⟨?_, ?_⟩
  · intro now amount
    obtain ⟨u, hu, e⟩ := hex
    subst e
    obtain ⟨y, hy⟩ := find_of_mem s.users u hu
    obtain ⟨hym, hyid⟩ := find_some_mem s u.id y hy
    have hc := canWithdraw_other s now u.id y.type (hother y hym hyid).1 (hother y hym hyid).2
    rw [withdraw_limitExceeded s now u.id amount y hy hc]
    exact ⟨rfl, by simp⟩
  · intro now
    have hno : ∀ v ∈ s.users, v.id = userId → ¬ (0 < (getWallet s userId).balance ∧
        (canWithdraw s now userId v.type).2 = true) := by
      intro v hv e hcon
      rw [canWithdraw_other s now userId v.type (hother v hv e).1 (hother v hv e).2] at hcon
      exact absurd hcon.2 (by simp)
    obtain ⟨j1, j2, _⟩ := eodFold_unswept now s.users s userId hno
    exact ⟨j1, j2⟩

/-- Witness for `other_role_never_debited`: user 5 of role `admin`, holding 120. -/
theorem other_role_never_debited_witness :
    (withdraw adm3 ⟨7, 2⟩ 5 50).2 = .limitExceeded ∧
    (eodAutoWithdraw adm3 ⟨7, 2⟩).wallets 5 = adm3.wallets 5 :=
  ⟨((other_role_never_debited adm3 5 ⟨⟨5, .other "admin", "A"⟩, by decide, rfl⟩
      (by decide)).1 ⟨7, 2⟩ 50).1,
   ((other_role_never_debited adm3 5 ⟨⟨5, .other "admin", "A"⟩, by decide, rfl⟩
      (by decide)).2 ⟨7, 2⟩).1⟩

/-! ## A second sweep on the same day -/

theorem settled_after_step (now : Timestamp) (s : State) (x : User) :
    Settled now (eodUser now s x) x := by
  intro hb
  by_cases he : 0 < (getWallet s x.id).balance ∧ (canWithdraw s now x.id x.type).2 = true
  · exfalso
    obtain ⟨hb0, hc⟩ := he
    cases hws : s.wallets x.id with
    | none => simp [getWallet, hws, WalletOf.zero] at hb0
    | some w =>
      have hb1 : 0 < w.balance := by simpa [getWallet, hws] using hb0
      rw [eodUser_swept now s x w hws hb1 hc] at hb
      simp [getWallet, setKey] at hb
  · by_cases hb0 : 0 < (getWallet s x.id).balance
    · have hc : (canWithdraw s now x.id x.type).2 = false := by
        cases hc : (canWithdraw s now x.id x.type).2 with
        | false => rfl
        | true => exact absurd ⟨hb0, hc⟩ he
      rw [eodUser_skip_limit now s x hb0 hc]
      refine ⟨?_, ?_⟩
      · rw [canWithdraw_state]
        cases hx : s.withdrawals x.id with
        | none => simp [setKey]
        | some l => simp [hx]
      · rw [canWithdraw_snd_congr _ s now x.id x.type (canWithdraw_logEntries s now x.id x.type x.id)]
        exact hc
    · rw [eodUser_skip_balance now s x hb0] at hb
      exact absurd hb hb0

theorem settled_step (now : Timestamp) (s : State) (x y : User) (h : Settled now s x) :
    Settled now (eodUser now s y) x := by
  intro hb
  by_cases hsw : y.id = x.id ∧ 0 < (getWallet s x.id).balance ∧
      (canWithdraw s now x.id y.type).2 = true
  · exfalso
    obtain ⟨e, hb0, hc⟩ := hsw
    rw [← e] at hb0 hc hb
    cases hws : s.wallets y.id with
    | none => simp [getWallet, hws, WalletOf.zero] at hb0
    | some w =>
      have hb1 : 0 < w.balance := by simpa [getWallet, hws] using hb0
      rw [eodUser_swept now s y w hws hb1 hc] at hb
      simp [getWallet, setKey] at hb
  · obtain ⟨k1, k2, k3⟩ := eodUser_keep now s y x.id (fun e hcon => hsw ⟨e, hcon⟩)
    rw [getWallet_congr _ s x.id k1] at hb
    obtain ⟨h1, h2⟩ := h hb
    refine ⟨?_, ?_⟩
    · rw [k3 (Or.inl h1)]; exact h1
    · rw [canWithdraw_snd_congr _ s now x.id x.type k2]; exact h2

theorem settled_fold (now : Timestamp) (l : List User) (s : State) (x : User)
    (h : Settled now s x) : Settled now (l.foldl (eodUser now) s) x := by
  induction l generalizing s with
  | nil => exact h
  | cons y ys ih => exact ih _ (settled_step now s x y h)

theorem settled_all (now : Timestamp) (l : List User) (s : State) :
    ∀ x ∈ l, Settled now (l.foldl (eodUser now) s) x := by
  induction l generalizing s with
  | nil => intro x hx; cases hx
  | cons y ys ih =>
    intro x hx
    rcases List.mem_cons.mp hx with e | hmem
    · subst e
      exact settled_fold now ys _ x (settled_after_step now s x)
    · exact ih (eodUser now s y) x hmem

theorem eodUser_settled (now now2 : Timestamp) (hday : now2.day = now.day) (s : State)
    (x : User) (h : Settled now s x) : eodUser now2 s x = s := by
  by_cases hb : 0 < (getWallet s x.id).balance
  · obtain ⟨h1, h2⟩ := h hb
    have hc : (canWithdraw s now2 x.id x.type).2 = false := by
      rw [canWithdraw_cap, hday, ← canWithdraw_cap]
      exact h2
    rw [eodUser_skip_limit now2 s x hb hc, canWithdraw_state]
    cases hx : s.withdrawals x.id with
    | none => exact absurd hx h1
    | some l => rfl
  · exact eodUser_skip_balance now2 s x hb

theorem eodFold_settled (now now2 : Timestamp) (hday : now2.day = now.day) (l : List User)
    (s : State) (h : ∀ x ∈ l, Settled now s x) : l.foldl (eodUser now2) s = s := by
  induction l with
  | nil => rfl
  | cons y ys ih =>
    simp only [List.foldl]
    rw [eodUser_settled now now2 hday s y (h y (List.mem_cons_self _ _))]
    exact ih (fun x hx => h x (List.mem_cons_of_mem _ hx))

/-- Claim C20. Running the sweep twice in succession on the same calendar day gives
the store that running it once gives: the second run debits nobody, records no
withdrawal and changes nothing. -/
theorem sweep_twice_same_day (s : State) (now now2 : Timestamp) (hday : now2.day = now.day) :
    eodAutoWithdraw (eodAutoWithdraw s now) now2 = eodAutoWithdraw s now := by
  unfold eodAutoWithdraw
  rw [eodFold_users]
  exact eodFold_settled now now2 hday s.users _ (settled_all now s.users s)

/-- Witness for `sweep_twice_same_day`: two sweeps on day 8 of the store in which
customer 1 and vendor 2 hold 120 each. -/
theorem sweep_twice_same_day_witness :
    eodAutoWithdraw (eodAutoWithdraw run3 ⟨8, 0⟩) ⟨8, 5⟩ = eodAutoWithdraw run3 ⟨8, 0⟩ :=
  sweep_twice_same_day run3 ⟨8, 0⟩ ⟨8, 5⟩ rfl

/-! ## The rate limiter and the debit primitive -/

/-- Claim C13. Evaluated on a current day `d`, `canWithdraw` returns true for a
customer iff the user's log has fewer than 1 entry dated `d`, for a vendor iff it
has fewer than 3 entries dated `d`, and returns false for every other role,
whatever the log holds. -/
theorem canWithdraw_spec (s : State) (now : Timestamp) (userId : UserId) :
    ((canWithdraw s now userId .customer).2 = true ↔ withdrawalsOn s userId now.day < 1) ∧
    ((canWithdraw s now userId .vendor).2 = true ↔ withdrawalsOn s userId now.day < 3) ∧
    (∀ label, (canWithdraw s now userId (.other label)).2 = false) := by
  refine ⟨?_, ?_, ?_⟩
  · rw [canWithdraw_result]; simp
  · rw [canWithdraw_result]; simp
  · intro label
    rw [canWithdraw_result]

/-- Claim C14, as stated, fails: customer 1 has no withdrawal log; after
`canWithdraw` the store holds an empty log for customer 1, so the set of ids that
have a log has changed. -/
theorem canWithdraw_creates_log :
    run1.withdrawals 1 = none ∧
    (canWithdraw run1 ⟨7, 0⟩ 1 .customer).1.withdrawals 1 = some [] ∧
    (canWithdraw run1 ⟨7, 0⟩ 1 .customer).1 ≠ run1 := by
  refine ⟨by decide, by decide, ?_⟩
  intro h
  have h1 : (canWithdraw run1 ⟨7, 0⟩ 1 .customer).1.withdrawals 1 = run1.withdrawals 1 := by
    rw [h]
  revert h1
  decide

/-- Claim C14, amended. `canWithdraw` leaves the users, the referrals, the wallets,
the entries of every withdrawal log and the log of every other id unchanged; the
store is identical when the user already has a log, and otherwise differs only by
the empty log created for the user. -/
theorem canWithdraw_frame (s : State) (now : Timestamp) (userId : UserId) (role : Role) :
    SameButEmptyLog s (canWithdraw s now userId role).1 userId ∧
    (s.withdrawals userId ≠ none → (canWithdraw s now userId role).1 = s) ∧
    (s.withdrawals userId = none →
      (canWithdraw s now userId role).1.withdrawals userId = some []) := by
  refine ⟨canWithdraw_sameButEmptyLog s now userId role, ?_, ?_⟩
  · intro h
    rw [canWithdraw_state]
    cases hx : s.withdrawals userId with
    | none => exact absurd hx h
    | some l => rfl
  · intro h
    rw [canWithdraw_state, h]
    simp [setKey]

/-- Witness for `canWithdraw_frame`: customer 1 with a log (after a withdrawal) and
without one (just registered). -/
theorem canWithdraw_frame_witness :
    (canWithdraw run4 ⟨7, 3⟩ 1 .customer).1 = run4 ∧
    (canWithdraw run1 ⟨7, 0⟩ 1 .customer).1.withdrawals 1 = some [] :=
  ⟨(canWithdraw_frame run4 ⟨7, 3⟩ 1 .customer).2.1 (by decide),
   (canWithdraw_frame run1 ⟨7, 0⟩ 1 .customer).2.2 (by decide)⟩

/-- Claim C15. `withdrawUser` declines iff the wallet is absent or its balance is
below the amount, and then the store is unchanged; otherwise it returns true, the
balance becomes the old balance minus the amount, which is not negative, exactly one
debit record of the amount is appended to the history, and nothing else changes.
This holds for every amount, in particular for amount > 0. -/
theorem debit_spec (s : State) (now : Timestamp) (userId : UserId) (amount : Int) :
    ((withdrawUser s now userId amount).2 = false ↔
      (s.wallets userId = none ∨ ∃ w, s.wallets userId = some w ∧ w.balance < amount)) ∧
    ((withdrawUser s now userId amount).2 = false → (withdrawUser s now userId amount).1 = s) ∧
    (∀ w, s.wallets userId = some w → amount ≤ w.balance →
      (withdrawUser s now userId amount).2 = true ∧
      (withdrawUser s now userId amount).1.wallets userId =
        some ⟨w.balance - amount, w.transactions ++ [⟨.debit, amount, now⟩]⟩ ∧
      0 ≤ w.balance - amount ∧
      (∀ v, v ≠ userId → (withdrawUser s now userId amount).1.wallets v = s.wallets v) ∧
      (withdrawUser s now userId amount).1.users = s.users ∧
      (withdrawUser s now userId amount).1.referrals = s.referrals ∧
      (withdrawUser s now userId amount).1.withdrawals = s.withdrawals) := by
  refine ⟨withdrawUser_result s now userId amount, withdrawUser_false s now userId amount, ?_⟩
  intro w hw hb
  rw [withdrawUser_true s now userId amount w hw hb]
  refine ⟨rfl, setKey_same _ _ _, by omega, ?_, rfl, rfl, rfl⟩
  intro v hv
  exact setKey_other _ _ _ _ hv

/-- Witness for `debit_spec`: 50 debited from the 120 of customer 1. -/
theorem debit_spec_witness :
    (withdrawUser run3 ⟨7, 2⟩ 1 50).2 = true ∧
    (withdrawUser run3 ⟨7, 2⟩ 1 50).1.wallets 1 =
      some ⟨120 - 50, [⟨.credit, 120, ⟨7, 1⟩⟩] ++ [⟨.debit, 50, ⟨7, 2⟩⟩]⟩ :=
  ⟨((debit_spec run3 ⟨7, 2⟩ 1 50).2.2 ⟨120, [⟨.credit, 120, ⟨7, 1⟩⟩]⟩ run3_wallet1
      (by decide)).1,
   ((debit_spec run3 ⟨7, 2⟩ 1 50).2.2 ⟨120, [⟨.credit, 120, ⟨7, 1⟩⟩]⟩ run3_wallet1
      (by decide)).2.1⟩

/-! ## Log entries and debit records -/

theorem debitCount_append (txs : List Transaction) (t : Transaction) :
    debitCount (txs ++ [t]) = debitCount txs + (if t.type = .debit then 1 else 0) := by
  unfold debitCount
  by_cases h : t.type = .debit <;> simp [List.filter_append, h]

theorem LogInv_frame (s post : State) (hw : post.wallets = s.wallets)
    (hl : ∀ v, logEntries post v = logEntries s v) (h : LogInv s) : LogInv post := by
  intro id
  rw [hl id, getWallet_congr post s id (by rw [hw])]
  exact h id

theorem LogInv_debit (s : State) (us : List User) (rs : List Referral) (u : UserId)
    (w : Wallet) (b a : Int) (now : Timestamp) (hw : s.wallets u = some w) (h : LogInv s) :
    LogInv (StateOf.mk us rs
      (setKey s.wallets u ⟨b, w.transactions ++ [TransactionOf.mk .debit a now]⟩)
      (setKey s.withdrawals u (logEntries s u ++ [now]))) := by
  intro id
  by_cases hid : id = u
  · subst hid
    have h0 := h id
    simp only [getWallet, hw, Option.getD_some] at h0
    simp [logEntries, getWallet, setKey, debitCount_append]
    simpa [logEntries] using h0
  · have h0 := h id
    simpa [logEntries, getWallet, setKey, hid] using h0

theorem credited_logInv (s : State) (now : Timestamp) (u : UserId) (a : Int)
    (h : LogInv s) : LogInv (credited s now u a) := by
  intro id
  have hl : logEntries (credited s now u a) id = logEntries s id := rfl
  rw [hl]
  by_cases hid : id = u
  · subst hid
    rw [getWallet_credited_same]
    simp only [debitCount_append]
    simpa using h id
  · rw [getWallet_credited_other s now u id a hid]
    exact h id

theorem withdraw_logInv (s : State) (now : Timestamp) (u : UserId) (a : Int) (h : LogInv s) :
    LogInv (withdraw s now u a).1 := by
  by_cases hs : ∃ b, (withdraw s now u a).2 = .success b
  · cases hf : s.users.find? (fun x => decide (x.id = u)) with
    | none =>
      rw [withdraw_notFound s now u a hf] at hs
      obtain ⟨b, hb⟩ := hs
      cases hb
    | some user =>
      obtain ⟨b, hb⟩ := hs
      have hr := withdraw_result s now u a user hf
      rw [hb] at hr
      cases hc : (canWithdraw s now u user.type).2 with
      | false => simp [hc] at hr
      | true =>
        by_cases hm : a < minAmount user.type
        · simp [hc, hm] at hr
        · cases hw : s.wallets u with
          | none => simp [hc, hm, hw] at hr
          | some w =>
            by_cases hlt : w.balance < a
            · simp [hc, hm, hw, hlt] at hr
            · rw [withdraw_success s now u a user hf hc hm w hw (not_lt.mp hlt)]
              exact LogInv_debit s _ _ u w _ a now hw h
  · have hfail : ∀ b, (withdraw s now u a).2 ≠ .success b := fun b hb => hs ⟨b, hb⟩
    obtain ⟨_, _, h3, h4, _, _⟩ := withdraw_failure_frame s now u a hfail
    exact LogInv_frame s _ h3 h4 h

theorem eodUser_logInv (now : Timestamp) (s : State) (x : User) (h : LogInv s) :
    LogInv (eodUser now s x) := by
  by_cases he : 0 < (getWallet s x.id).balance ∧ (canWithdraw s now x.id x.type).2 = true
  · obtain ⟨hb, hc⟩ := he
    cases hws : s.wallets x.id with
    | none => simp [getWallet, hws, WalletOf.zero] at hb
    | some w =>
      have hb1 : 0 < w.balance := by simpa [getWallet, hws] using hb
      rw [eodUser_swept now s x w hws hb1 hc]
      exact LogInv_debit s _ _ x.id w _ w.balance now hws h
  · obtain ⟨_, _, h3, h4, _, _⟩ := eodUser_skipped now s x he
    exact LogInv_frame s _ h3 h4 h

theorem eodFold_logInv (now : Timestamp) (l : List User) (s : State) (h : LogInv s) :
    LogInv (l.foldl (eodUser now) s) := by
  induction l generalizing s with
  | nil => exact h
  | cons x xs ih => exact ih _ (eodUser_logInv now s x h)

theorem reachable_logInv (s : State) (h : Reachable s) : LogInv s := by
  induction h with
  | init => intro id; simp [logEntries, getWallet, StateOf.empty, WalletOf.zero, debitCount]
  | register id type profile _ hfresh ih =>
    obtain ⟨_, _, _, hl⟩ := hfresh
    intro v
    by_cases hv : v = id
    · subst hv
      simp [logEntries, getWallet, register, setKey, hl, WalletOf.zero, debitCount]
    · have h0 := ih v
      simpa [logEntries, getWallet, register, setKey, hv] using h0
  | initiateReferral now vendorId customerId vendorName vendorLocation _ _ ih => exact ih
  | @vendorRegister s now vendorId vendorDetails agreementAccepted _ ih =>
    rcases vendorRegister_cases s now vendorId vendorDetails agreementAccepted with
      e | e | ⟨c, e⟩
    · rw [e]; exact ih
    · rw [e]; exact LogInv_frame s _ rfl (fun _ => rfl) ih
    · rw [e]
      apply credited_logInv
      apply credited_logInv
      exact LogInv_frame s _ rfl (fun _ => rfl) ih
  | withdraw now userId amount _ ih => exact withdraw_logInv _ _ _ _ ih
  | eodAutoWithdraw now _ ih => exact eodFold_logInv _ _ _ ih

/-- Claim C16. In every reachable state, for every user id, the number of entries in
the withdrawal log equals the number of debit records in the wallet history: an
entry is recorded for each withdrawal that debited, once, and for no other. -/
theorem log_matches_debits (s : State) (h : Reachable s) (userId : UserId) :
    (logEntries s userId).length = debitCount (getWallet s userId).transactions :=
  reachable_logInv s h userId

/-- Witness for `log_matches_debits`: customer 1 after one withdrawal. -/
theorem log_matches_debits_witness :
    (logEntries run4 1).length = debitCount (getWallet run4 1).transactions :=
  log_matches_debits run4 reachable_run4 1

/-! ## Amounts of the records -/

theorem AmountInv_append (m : UserId → Option Wallet) (u : UserId) (w : Wallet) (b : Int)
    (t : Transaction) (hm : AmountInv m) (hw : ∀ t0 ∈ w.transactions,
      (t0.type = .credit → t0.amount = 120) ∧ (t0.type = .debit → 0 ≤ t0.amount))
    (ht : (t.type = .credit → t.amount = 120) ∧ (t.type = .debit → 0 ≤ t.amount)) :
    AmountInv (setKey m u ⟨b, w.transactions ++ [t]⟩) := by
  intro id w1 h1 t1 hmem
  by_cases hid : id = u
  · subst hid
    rw [setKey_same] at h1
    cases h1
    rcases List.mem_append.mp hmem with h | h
    · exact hw t1 h
    · rw [List.mem_singleton.mp h]; exact ht
  · rw [setKey_other _ _ _ _ hid] at h1
    exact hm id w1 h1 t1 hmem

theorem credited_amountInv (s : State) (now : Timestamp) (u : UserId)
    (h : AmountInv s.wallets) : AmountInv (credited s now u 120).wallets := by
  unfold credited
  apply AmountInv_append _ _ _ _ _ h
  · cases hw : s.wallets u with
    | none => intro t0 h0; simp [WalletOf.zero] at h0
    | some w => exact h u w hw
  · exact ⟨fun _ => rfl, fun h => (by cases h)⟩

theorem withdraw_amountInv (s : State) (now : Timestamp) (u : UserId) (a : Int)
    (h : AmountInv s.wallets) : AmountInv (withdraw s now u a).1.wallets := by
  by_cases hs : ∃ b, (withdraw s now u a).2 = .success b
  · cases hf : s.users.find? (fun x => decide (x.id = u)) with
    | none =>
      rw [withdraw_notFound s now u a hf] at hs
      obtain ⟨b, hb⟩ := hs
      cases hb
    | some user =>
      obtain ⟨b, hb⟩ := hs
      have hr := withdraw_result s now u a user hf
      rw [hb] at hr
      cases hc : (canWithdraw s now u user.type).2 with
      | false => simp [hc] at hr
      | true =>
        by_cases hm : a < minAmount user.type
        · simp [hc, hm] at hr
        · cases hw : s.wallets u with
          | none => simp [hc, hm, hw] at hr
          | some w =>
            by_cases hlt : w.balance < a
            · simp [hc, hm, hw, hlt] at hr
            · rw [withdraw_success s now u a user hf hc hm w hw (not_lt.mp hlt)]
              have h0 : (0 : Int) ≤ minAmount user.type := by
                unfold minAmount
                split_ifs <;> decide
              have ha : 0 ≤ a := by omega
              exact AmountInv_append _ _ _ _ _ h (h u w hw)
                ⟨fun e => (by cases e), fun _ => ha⟩
  · have hfail : ∀ b, (withdraw s now u a).2 ≠ .success b := fun b hb => hs ⟨b, hb⟩
    obtain ⟨_, _, h3, _, _, _⟩ := withdraw_failure_frame s now u a hfail
    rw [h3]
    exact h

theorem eodUser_amountInv (now : Timestamp) (s : State) (x : User)
    (h : AmountInv s.wallets) : AmountInv (eodUser now s x).wallets := by
  by_cases he : 0 < (getWallet s x.id).balance ∧ (canWithdraw s now x.id x.type).2 = true
  · obtain ⟨hb, hc⟩ := he
    cases hws : s.wallets x.id with
    | none => simp [getWallet, hws, WalletOf.zero] at hb
    | some w =>
      have hb1 : 0 < w.balance := by simpa [getWallet, hws] using hb
      rw [eodUser_swept now s x w hws hb1 hc]
      exact AmountInv_append _ _ _ _ _ h (h x.id w hws)
        ⟨fun e => (by cases e), fun _ => le_of_lt hb1⟩
  · obtain ⟨_, _, h3, _, _, _⟩ := eodUser_skipped now s x he
    rw [h3]
    exact h

theorem eodFold_amountInv (now : Timestamp) (l : List User) (s : State)
    (h : AmountInv s.wallets) : AmountInv (l.foldl (eodUser now) s).wallets := by
  induction l generalizing s with
  | nil => exact h
  | cons x xs ih => exact ih _ (eodUser_amountInv now s x h)

theorem reachable_amountInv (s : State) (h : Reachable s) : AmountInv s.wallets := by
  induction h with
  | init => intro id w hw; simp [StateOf.empty] at hw
  | register id type profile _ _ ih =>
    intro v w hw t ht
    by_cases hv : v = id
    · subst hv
      simp only [register, setKey_same] at hw
      cases hw
      simp [WalletOf.zero] at ht
    · simp only [register, setKey_other _ _ _ _ hv] at hw
      exact ih v w hw t ht
  | initiateReferral now vendorId customerId vendorName vendorLocation _ _ ih => exact ih
  | @vendorRegister s now vendorId vendorDetails agreementAccepted _ ih =>
    rcases vendorRegister_cases s now vendorId vendorDetails agreementAccepted with
      e | e | ⟨c, e⟩
    · rw [e]; exact ih
    · rw [e]; exact ih
    · rw [e]
      apply credited_amountInv
      apply credited_amountInv
      exact ih
  | withdraw now userId amount _ ih => exact withdraw_amountInv _ _ _ _ ih
  | eodAutoWithdraw now _ ih => exact eodFold_amountInv _ _ _ ih

/-- Claim C17, as stated, fails: vendor 2, in a reachable state, withdraws 0; the
request succeeds and a debit record of amount 0 is appended to the history. -/
theorem zero_debit_recorded :
    Reachable (withdraw run3 ⟨7, 2⟩ 2 0).1 ∧
    (withdraw run3 ⟨7, 2⟩ 2 0).2 = .success 120 ∧
    (withdraw run3 ⟨7, 2⟩ 2 0).1.wallets 2 =
      some ⟨120, [⟨.credit, 120, ⟨7, 1⟩⟩, ⟨.debit, 0, ⟨7, 2⟩⟩]⟩ :=
  ⟨Reachable.withdraw ⟨7, 2⟩ 2 0 reachable_run3, by decide, by decide⟩

/-- Claim C17, amended. In every reachable state every credit record of every wallet
has amount 120, which is positive, and every debit record has an amount that is not
negative (a vendor may withdraw 0). -/
theorem record_amounts (s : State) (h : Reachable s) (userId : UserId) (w : Wallet)
    (hw : s.wallets userId = some w) (t : Transaction) (ht : t ∈ w.transactions) :
    (t.type = .credit → t.amount = 120 ∧ 0 < t.amount) ∧ (t.type = .debit → 0 ≤ t.amount) := by
  obtain ⟨h1, h2⟩ := reachable_amountInv s h userId w hw t ht
  refine ⟨fun e => ?_, h2⟩
  have := h1 e
  exact ⟨this, by omega⟩

/-- Witness for `record_amounts`: the two records of customer 1 after the reward
and the withdrawal of 120. -/
theorem record_amounts_witness :
    (0 : Int) ≤ (⟨.debit, 120, ⟨7, 2⟩⟩ : Transaction).amount ∧
    (⟨.credit, 120, ⟨7, 1⟩⟩ : Transaction).amount = 120 :=
  ⟨(record_amounts run4 reachable_run4 1 _ run4_wallet ⟨.debit, 120, ⟨7, 2⟩⟩ (by decide)).2 rfl,
   ((record_amounts run4 reachable_run4 1 _ run4_wallet ⟨.credit, 120, ⟨7, 1⟩⟩
      (by decide)).1 rfl).1⟩

/-! ## Histories only grow -/

theorem Extends_refl (l : List Transaction) : Extends l l := ⟨[], by simp⟩

theorem Extends_trans (a b c : List Transaction) (h1 : Extends a b) (h2 : Extends b c) :
    Extends a c := by
  obtain ⟨m1, e1⟩ := h1
  obtain ⟨m2, e2⟩ := h2
  exact ⟨m1 ++ m2, by rw [e2, e1, List.append_assoc]⟩

theorem HistoryKept_of_eq (s post : State) (h : post.wallets = s.wallets) :
    HistoryKept s post := by
  intro id w hw
  exact ⟨w, by rw [h]; exact hw, Extends_refl _⟩

theorem HistoryKept_trans (a b c : State) (h1 : HistoryKept a b) (h2 : HistoryKept b c) :
    HistoryKept a c := by
  intro id w hw
  obtain ⟨w1, e1, x1⟩ := h1 id w hw
  obtain ⟨w2, e2, x2⟩ := h2 id w1 e1
  exact ⟨w2, e2, Extends_trans _ _ _ x1 x2⟩

theorem HistoryKept_append (s post : State) (u : UserId) (b : Int) (t : Transaction)
    (h : post.wallets = setKey s.wallets u ⟨b, (getWallet s u).transactions ++ [t]⟩) :
    HistoryKept s post := by
  intro id w hw
  by_cases hid : id = u
  · subst hid
    refine ⟨_, by rw [h]; exact setKey_same _ _ _, ?_⟩
    simp only [getWallet, hw, Option.getD_some]
    exact ⟨[t], rfl⟩
  · exact ⟨w, by rw [h, setKey_other _ _ _ _ hid]; exact hw, Extends_refl _⟩

theorem credited_historyKept (s : State) (now : Timestamp) (u : UserId) (a : Int) :
    HistoryKept s (credited s now u a) :=
  HistoryKept_append s _ u _ _ rfl

theorem withdraw_historyKept (s : State) (now : Timestamp) (u : UserId) (a : Int) :
    HistoryKept s (withdraw s now u a).1 := by
  by_cases hs : ∃ b, (withdraw s now u a).2 = .success b
  · cases hf : s.users.find? (fun x => decide (x.id = u)) with
    | none =>
      rw [withdraw_notFound s now u a hf] at hs
      obtain ⟨b, hb⟩ := hs
      cases hb
    | some user =>
      obtain ⟨b, hb⟩ := hs
      have hr := withdraw_result s now u a user hf
      rw [hb] at hr
      cases hc : (canWithdraw s now u user.type).2 with
      | false => simp [hc] at hr
      | true =>
        by_cases hm : a < minAmount user.type
        · simp [hc, hm] at hr
        · cases hw : s.wallets u with
          | none => simp [hc, hm, hw] at hr
          | some w =>
            by_cases hlt : w.balance < a
            · simp [hc, hm, hw, hlt] at hr
            · rw [withdraw_success s now u a user hf hc hm w hw (not_lt.mp hlt)]
              apply HistoryKept_append s _ u (w.balance - a) ⟨.debit, a, now⟩
              simp [getWallet, hw]
  · have hfail : ∀ b, (withdraw s now u a).2 ≠ .success b := fun b hb => hs ⟨b, hb⟩
    obtain ⟨_, _, h3, _, _, _⟩ := withdraw_failure_frame s now u a hfail
    exact HistoryKept_of_eq s _ h3

theorem eodUser_historyKept (now : Timestamp) (s : State) (x : User) :
    HistoryKept s (eodUser now s x) := by
  by_cases he : 0 < (getWallet s x.id).balance ∧ (canWithdraw s now x.id x.type).2 = true
  · obtain ⟨hb, hc⟩ := he
    cases hws : s.wallets x.id with
    | none => simp [getWallet, hws, WalletOf.zero] at hb
    | some w =>
      have hb1 : 0 < w.balance := by simpa [getWallet, hws] using hb
      rw [eodUser_swept now s x w hws hb1 hc]
      apply HistoryKept_append s _ x.id (w.balance - w.balance) ⟨.debit, w.balance, now⟩
      simp [getWallet, hws]
  · obtain ⟨_, _, h3, _, _, _⟩ := eodUser_skipped now s x he
    exact HistoryKept_of_eq s _ h3

theorem eodFold_historyKept (now : Timestamp) (l : List User) (s : State) :
    HistoryKept s (l.foldl (eodUser now) s) := by
  induction l generalizing s with
  | nil => exact HistoryKept_of_eq s s rfl
  | cons x xs ih => exact HistoryKept_trans _ _ _ (eodUser_historyKept now s x) (ih _)

theorem vendorRegister_historyKept (s : State) (now : Timestamp) (v : UserId)
    (d : VendorDetails) (ag : Option Bool) : HistoryKept s (vendorRegister s now v d ag).1 := by
  rcases vendorRegister_cases s now v d ag with e | e | ⟨c, e⟩
  · rw [e]; exact HistoryKept_of_eq s s rfl
  · rw [e]; exact HistoryKept_of_eq s _ rfl
  · rw [e]
    refine HistoryKept_trans _ _ _ ?_ (credited_historyKept _ now v 120)
    refine HistoryKept_trans _ _ _ ?_ (credited_historyKept _ now c 120)
    exact HistoryKept_of_eq s _ rfl

/-- Claim C18. The transaction history is append-only: for vendor-register,
withdraw, the sweep, initiate-referral, and register with a fresh id, every wallet
that exists before the operation exists after it, with a history that is the history
before followed by zero or more records; no record is removed, reordered or
altered. -/
theorem history_append_only (s : State) :
    (∀ (now : Timestamp) (vendorId : UserId) (vendorDetails : VendorDetails)
        (agreementAccepted : Option Bool),
      HistoryKept s (vendorRegister s now vendorId vendorDetails agreementAccepted).1) ∧
    (∀ (now : Timestamp) (userId : UserId) (amount : Int),
      HistoryKept s (withdraw s now userId amount).1) ∧
    (∀ now : Timestamp, HistoryKept s (eodAutoWithdraw s now)) ∧
    (∀ (now : Timestamp) (vendorId : UserId) (customerId : Key)
        (vendorName vendorLocation : String),
      HistoryKept s (initiateReferral s now vendorId customerId vendorName vendorLocation)) ∧
    (∀ (id : UserId) (type : Role) (profile : String), Fresh s id →
      HistoryKept s (register s id type profile)) := by
  refine ⟨vendorRegister_historyKept s, withdraw_historyKept s,
    fun now => eodFold_historyKept now s.users s, ?_, ?_⟩
  · intro now vendorId customerId vendorName vendorLocation
    exact HistoryKept_of_eq s _ rfl
  · intro id type profile hfresh uid w hw
    obtain ⟨_, _, hnone, _⟩ := hfresh
    have hne : uid ≠ id := by
      intro e
      rw [e, hnone] at hw
      cases hw
    exact ⟨w, by simp [register, setKey, hne, hw], Extends_refl _⟩

/-- Witness for `history_append_only`: registering a user with the fresh id 2 in
the store that holds the wallet of customer 1. -/
theorem history_append_only_witness : HistoryKept run1 (register run1 2 .vendor "V") :=
  (history_append_only run1).2.2.2.2 2 .vendor "V" fresh_run1

/-! ## The ledger equation on doubles -/

/-- The double taken for `0.1` is within half a unit in the last place of 1/10. -/
theorem tenth_nearest : |Dbl.tenth.toRat - 1 / 10| < 1 / 2 ^ 57 := by
  simp only [Dbl.toRat, Dbl.tenth]
  norm_num [Int.toNat, abs_lt]

theorem fresh_flt_empty : Fresh (StateOf.empty : StateOf Dbl) 1 := by
  simp [Fresh, StateOf.empty]

theorem fresh_flt1 : Fresh flt1 2 := by
  unfold Fresh
  decide

theorem reachable_flt3 : Reachable flt3 :=
  Reachable.vendorRegister ⟨7, 1⟩ 2 ⟨none, none, "V"⟩ (some true)
    (Reachable.initiateReferral ⟨7, 0⟩ 2 (.id 1) "V" "L"
      (Reachable.register 1 .customer "C" Reachable.init fresh_flt_empty) fresh_flt1)

theorem flt6_wallet :
    flt6.wallets 2 = some ⟨.fin 4211569339033191 (-45),
      [⟨.credit, 120, ⟨7, 1⟩⟩, ⟨.debit, Dbl.tenth, ⟨7, 2⟩⟩, ⟨.debit, Dbl.tenth, ⟨7, 3⟩⟩,
       ⟨.debit, Dbl.tenth, ⟨7, 4⟩⟩]⟩ := by
  decide

/-- Claim C1, as stated, fails on the numbers of the program. Vendor 2, holding the
reward of 120, withdraws 0.1 three times on day 7: each request succeeds, the balance
is the double 119.70000000000002, which is neither the exact value of the credits
minus the debits nor that value computed in doubles (119.7). A fourth kind of
request, a body with no `amount`, passes every check and leaves the balance NaN,
which is not `>= 0`. Both stores are reachable. -/
theorem ledger_drifts_on_doubles :
    Reachable flt6 ∧
    (withdraw flt5 ⟨7, 4⟩ 2 Dbl.tenth).2 = .success (.fin 4211569339033191 (-45)) ∧
    (getWallet flt6 2).balance = .fin 4211569339033191 (-45) ∧
    (getWallet flt6 2).balance.toRat ≠
      Dbl.exactSum .credit (getWallet flt6 2).transactions -
        Dbl.exactSum .debit (getWallet flt6 2).transactions ∧
    (getWallet flt6 2).balance ≠
      Dbl.sum .credit (getWallet flt6 2).transactions -
        Dbl.sum .debit (getWallet flt6 2).transactions ∧
    Reachable flt7 ∧
    (getWallet flt7 2).balance = Dbl.nan ∧
    ¬ ((0 : Dbl) ≤ (getWallet flt7 2).balance) := by
  have hw : getWallet flt6 2 = ⟨.fin 4211569339033191 (-45),
      [⟨.credit, 120, ⟨7, 1⟩⟩, ⟨.debit, Dbl.tenth, ⟨7, 2⟩⟩, ⟨.debit, Dbl.tenth, ⟨7, 3⟩⟩,
       ⟨.debit, Dbl.tenth, ⟨7, 4⟩⟩]⟩ := by
    simp [getWallet, flt6_wallet]
  have h120 : (120 : Dbl) = .fin 15 3 := by decide
  refine ⟨?_, by decide, by rw [hw], ?_, by decide, ?_, by decide, by decide⟩
  · exact Reachable.withdraw ⟨7, 4⟩ 2 Dbl.tenth
      (Reachable.withdraw ⟨7, 3⟩ 2 Dbl.tenth
        (Reachable.withdraw ⟨7, 2⟩ 2 Dbl.tenth reachable_flt3))
  · rw [hw]
    have hc : Dbl.exactSum .credit
        [⟨.credit, 120, ⟨7, 1⟩⟩, ⟨.debit, Dbl.tenth, ⟨7, 2⟩⟩, ⟨.debit, Dbl.tenth, ⟨7, 3⟩⟩,
         ⟨.debit, Dbl.tenth, ⟨7, 4⟩⟩] = Dbl.toRat (.fin 15 3) := by
      simp [Dbl.exactSum, h120]
    have hd : Dbl.exactSum .debit
        [⟨.credit, 120, ⟨7, 1⟩⟩, ⟨.debit, Dbl.tenth, ⟨7, 2⟩⟩, ⟨.debit, Dbl.tenth, ⟨7, 3⟩⟩,
         ⟨.debit, Dbl.tenth, ⟨7, 4⟩⟩] =
        Dbl.tenth.toRat + (Dbl.tenth.toRat + Dbl.tenth.toRat) := by
      simp [Dbl.exactSum]
    rw [hc, hd]
    simp only [Dbl.toRat, Dbl.tenth]
    norm_num [Int.toNat]
  · exact Reachable.withdraw ⟨7, 2⟩ 2 Dbl.nan reachable_flt3

end Server
